import Mathlib

/-!
# linstor-monitord: watch/reconcile state machine

Shallow embedding of `src/linstor/linstor-monitord.c`.

* Bytes are natural numbers, C strings are lists of bytes read through `cAt`
  (the byte at an index, `0` at and after the end of the list, which is where
  the terminating NUL sits).
* Return codes are integers (`0`, `-errno`), as in the source.
* The operating system is an `Env`: for every system call the outcome of its
  n-th invocation.  The `World` counts the invocations made so
  far, holds the set of inotify watches registered through
  `inotify_add_watch` / `inotify_rm_watch`, and the list of externally visible
  actions performed so far.
* Loops take a fuel argument; `none` means that the fuel ran out.
* `syslog` calls are not modelled.
-/

namespace LinstorMonitord

/-! ## Constants -/

/-- Value of `errno` where the source reads it (`-errno`, `errno == EAGAIN`) after a
failed call: never zero, since no library function sets `errno` to zero. -/
structure Errno where
  code : Nat
  pos : 0 < code
deriving DecidableEq, Repr

def ENOENT : Errno := ⟨2, by decide⟩
def EINTR : Errno := ⟨4, by decide⟩
def EIO : Errno := ⟨5, by decide⟩
def EAGAIN : Errno := ⟨11, by decide⟩
def EACCES : Errno := ⟨13, by decide⟩
def EINVAL : Errno := ⟨22, by decide⟩

/-- The C expression `-errno`. -/
def Errno.neg (e : Errno) : Int := -(e.code : Int)

/-- Bytes of an ASCII literal. -/
def bytes (s : String) : List Nat := s.toList.map Char.toNat

def POOL_CONF_DIR : String := "/etc/xensource"
def POOL_CONF_FILE : String := "pool.conf"
def POOL_CONF_ABS_FILE : String := POOL_CONF_DIR ++ "/" ++ POOL_CONF_FILE

/-- In milliseconds. -/
def POLL_TIMEOUT : Int := 2000

def IN_MODIFY : Nat := 0x2
def IN_MOVED_TO : Nat := 0x80
def IN_CREATE : Nat := 0x100
def IN_DELETE_SELF : Nat := 0x400
def IN_MOVE_SELF : Nat := 0x800
def IN_UNMOUNT : Nat := 0x2000
def IN_Q_OVERFLOW : Nat := 0x4000
def IN_IGNORED : Nat := 0x8000

def PROCESS_MODE_DEFAULT : Nat := 0
def PROCESS_MODE_WAIT_FILE_CREATION : Nat := 1

/-! ## libc string functions -/

/-- Byte of a C string at an index; the terminating NUL at and after the end. -/
def cAt (s : List Nat) (i : Nat) : Nat := s.getD i 0

/-- The libc `strncmp(s1, s2, n)`: compares at most `n` bytes, stops at the first
difference or at a NUL; returns the difference of the first differing bytes. -/
def strncmp : List Nat → List Nat → Nat → Int
  | _, _, 0 => 0
  | s1, s2, n + 1 =>
    if cAt s1 0 ≠ cAt s2 0 then (cAt s1 0 : Int) - (cAt s2 0 : Int)
    else if cAt s1 0 = 0 then 0
    else strncmp s1.tail s2.tail n

/-- The libc `isspace` in the "C" locale: space, `\t`, `\n`, `\v`, `\f`, `\r`. -/
def isspace (c : Nat) : Int := if c = 32 ∨ (9 ≤ c ∧ c ≤ 13) then 1 else 0

/-- Bytes stored by `fgets` given room for `n` bytes before the terminating NUL:
reading stops after a newline, at end of file, or when the room is used up. -/
def fgetsLine : Nat → List Nat → List Nat
  | 0, _ => []
  | _ + 1, [] => []
  | n + 1, c :: cs => if c = 10 then [c] else c :: fgetsLine n cs

/-- The libc `fgets(buffer, size, f)` on a readable stream with the given remaining
content: `none` is the NULL result (end of file before any byte), otherwise the
bytes stored in the buffer before the terminating NUL. -/
def fgets (size : Nat) (content : List Nat) : Option (List Nat) :=
  match fgetsLine (size - 1) content with
  | [] => none
  | line => some line

/-! ## Reading the pool configuration -/

/-- What an attempt to open and read `/etc/xensource/pool.conf` meets. -/
inductive PoolConf where
  /-- The call of `fopen` returns NULL, with this `errno`. -/
  | openFails (errno : Errno)
  /-- The call of `fopen` succeeds, `fgets` returns NULL because of a read error. -/
  | readFails
  /-- The call of `fopen` succeeds and the file holds these bytes. -/
  | content (data : List Nat)
deriving DecidableEq, Repr

/-- The function `readPoolConf(buffer, bufferSize)`: the return code and the C string left in
the buffer (empty where the source leaves the buffer untouched). -/
def readPoolConf (conf : PoolConf) (bufferSize : Nat) : Int × List Nat :=
  match conf with
  | .openFails errno => (errno.neg, [])
  | .readFails => ( EIO.neg, [])
  | .content data =>
    match fgets bufferSize data with
    | none => ( EIO.neg, [])
    | some line => (0, line)

def masterStr : List Nat := bytes "master"
def masterLen : Nat := (masterStr.length + 1) - 1

/-- The function `isMasterHost(&error)`: the returned value and the value stored in `*error`. -/
def isMasterHost (conf : PoolConf) : Int × Int :=
  let r := readPoolConf conf 512
  let buffer := r.2
  if r.1 < 0 then (0, r.1)
  else
    let ret : Int :=
      if strncmp buffer masterStr masterLen = 0 then
        let endc := cAt buffer masterLen
        if endc = 0 ∨ isspace endc ≠ 0 then 1 else 0
      else r.1
    if ret < 0 then (0, ret) else (ret, 0)


/-! ## Time -/

/-- The C `struct timespec`; both fields are 64-bit in the source and are unbounded here. -/
structure Timespec where
  tv_sec : Int
  tv_nsec : Int
deriving DecidableEq, Repr

/-- First loop of `normalizeTime`, at most `fuel` iterations. -/
def normalizeUp : Nat → Timespec → Timespec
  | 0, spec => spec
  | fuel + 1, spec =>
    if spec.tv_nsec ≥ 1000000000 then
      normalizeUp fuel { tv_sec := spec.tv_sec + 1, tv_nsec := spec.tv_nsec - 1000000000 }
    else spec

/-- Second loop of `normalizeTime`, at most `fuel` iterations. -/
def normalizeDown : Nat → Timespec → Timespec
  | 0, spec => spec
  | fuel + 1, spec =>
    if spec.tv_nsec < 0 then
      normalizeDown fuel { tv_sec := spec.tv_sec - 1, tv_nsec := spec.tv_nsec + 1000000000 }
    else spec

/-- The function `normalizeTime(&spec)`: each loop gets as many iterations as it can use. -/
def normalizeTime (spec : Timespec) : Timespec :=
  let spec := normalizeUp (spec.tv_nsec / 1000000000).toNat spec
  normalizeDown ((999999999 - spec.tv_nsec) / 1000000000).toNat spec

def getTimeDiff (a b : Timespec) : Timespec :=
  let result := a
  let result := { result with tv_sec := result.tv_sec - (b.tv_sec - 1) }
  let result := { result with tv_nsec := result.tv_nsec - (b.tv_nsec + 1000000000) }
  normalizeTime result

def convertToMilliseconds (spec : Timespec) : Int :=
  let spec := { spec with tv_nsec := spec.tv_nsec + (1000 - Int.tmod spec.tv_nsec 1000) }
  let spec := normalizeTime spec
  spec.tv_sec * 1000 + Int.tdiv spec.tv_nsec 1000000

/-- Conversion of a 64-bit value to the 32-bit C `int`. -/
def toInt32 (x : Int) : Int := (x + 2147483648) % 4294967296 - 2147483648

/-! ## Operating system interface -/

/-- Outcome of a system call that returns a descriptor: `-1` with an `errno`, or a
non-negative value. -/
inductive SysResult where
  | fails (errno : Errno)
  | ok (value : Nat)
deriving DecidableEq, Repr

/-- Outcome of the system calls made by `execCommand`. -/
inductive ExecOutcome where
  /-- The call of `fork` returns a negative value. -/
  | forkFails (errno : Errno)
  /-- The child was started and `waitpid` returns a negative value. -/
  | waitFails (errno : Errno)
  /-- The child was started and `waitpid` returned this status. -/
  | waited (status : Nat)
deriving DecidableEq, Repr

/-- The C `struct inotify_event`; `len` is the size of the `name` field, whose bytes
(the name and its NUL padding) are `name`. -/
structure InotifyEvent where
  wd : Int
  mask : Nat
  cookie : Nat
  name : List Nat
deriving DecidableEq, Repr

def InotifyEvent.len (event : InotifyEvent) : Nat := event.name.length

/-- Outcome of fetching the pending events in `processPoolConfEvents`. -/
inductive ReadOutcome where
  /-- One of `ioctl(FIONREAD)`, `realloc`, `read` fails, with this `errno`. -/
  | fails (errno : Errno)
  /-- The three calls succeed and the buffer holds these events. -/
  | batch (events : List InotifyEvent)
deriving DecidableEq, Repr

/-- Outcome of `poll` on the inotify descriptor. -/
inductive PollOutcome where
  /-- The call returns a negative value. -/
  | failed (errno : Errno)
  /-- The call returns `0`. -/
  | timedOut
  /-- The call returns a positive value; the pending events are then fetched. -/
  | ready (r : ReadOutcome)
deriving DecidableEq, Repr

/-- The operating system: the outcome of the n-th invocation of each call. -/
structure Env where
  clock_gettime : Nat → Timespec
  poolConf : Nat → PoolConf
  exec : Nat → ExecOutcome
  /-- The `errno` of a failing `gethostname`, `none` when it succeeds. -/
  gethostname : Nat → Option Errno
  inotify_init1 : SysResult
  inotify_add_watch : Nat → SysResult
  poll : Nat → PollOutcome

/-- Externally visible calls. -/
inductive Action where
  | execCommand (argv : List String)
  | inotify_add_watch (fd : Int) (path : String) (mask : Nat)
  | inotify_rm_watch (fd : Int) (wd : Int)
  | gethostname
  | poll (fd : Int) (timeout : Int)
  | close (fd : Int)
deriving DecidableEq, Repr

/-- The process's interaction with the operating system so far. -/
structure World where
  /-- Number of calls made so far, per system call. -/
  clockCalls : Nat
  confReads : Nat
  execCalls : Nat
  hostCalls : Nat
  addCalls : Nat
  pollCalls : Nat
  /-- Watches registered by `inotify_add_watch` and not yet removed by
  `inotify_rm_watch`: watch descriptor and watched path. -/
  watches : List (Int × String)
  /-- Calls made so far, oldest first. -/
  trace : List Action
deriving DecidableEq, Repr

def World.init : World :=
  { clockCalls := 0, confReads := 0, execCalls := 0, hostCalls := 0, addCalls := 0,
    pollCalls := 0, watches := [], trace := [] }

/-- The C `State` structure. -/
structure State where
  inotifyFd : Int
deriving DecidableEq, Repr

/-- The function `getCurrentTime`: the next reading of the monotonic clock. -/
def getCurrentTime (env : Env) (w : World) : Timespec × World :=
  (env.clock_gettime w.clockCalls, { w with clockCalls := w.clockCalls + 1 })

/-- The function `execCommand(argv)` as seen by the calling process: the call is recorded
with its arguments, the result follows from the outcomes of `fork` and `waitpid`. -/
def execCommand (env : Env) (argv : List String) (w : World) : Int × World :=
  let w1 := { w with execCalls := w.execCalls + 1, trace := w.trace ++ [.execCommand argv] }
  match env.exec w.execCalls with
  | .forkFails errno => (errno.neg, w1)
  | .waitFails errno => (errno.neg, w1)
  | .waited _ => (0, w1)

def createInotifyInstance (env : Env) : Int :=
  match env.inotify_init1 with
  | .fails errno => errno.neg
  | .ok fd => fd

/-- The function `addInotifyWatch`.  A successful `inotify_add_watch` enters the
returned descriptor, with the path, in the set of registered watches; an entry with the
same descriptor is replaced, since inotify returns the descriptor of the existing watch
when the object is watched already. -/
def addInotifyWatch (env : Env) (inotifyFd : Int) (filepath : String) (mask : Nat)
    (w : World) : Int × World :=
  let w1 := { w with addCalls := w.addCalls + 1,
                     trace := w.trace ++ [.inotify_add_watch inotifyFd filepath mask] }
  match env.inotify_add_watch w.addCalls with
  | .fails errno => (errno.neg, w1)
  | .ok wd =>
    (wd, { w1 with watches := w1.watches.filter (fun x => x.1 ≠ (wd : Int)) ++ [((wd : Int), filepath)] })

/-- The system call `inotify_rm_watch(fd, wd)`; its result is not used by the source. -/
def inotify_rm_watch (inotifyFd : Int) (wd : Int) (w : World) : World :=
  { w with watches := w.watches.filter (fun x => x.1 ≠ wd),
           trace := w.trace ++ [.inotify_rm_watch inotifyFd wd] }

/-! ## Reconciliation -/

/-- The function `updateLinstorServices` (reconciliation): one attempt to read the
configuration file, then one call of `execCommand` unless the read failed. -/
def updateLinstorServices (env : Env) (w : World) : Int × World :=
  let r := isMasterHost (env.poolConf w.confReads)
  let isMaster := r.1
  let error := r.2
  let w1 := { w with confReads := w.confReads + 1 }
  if error ≠ 0 then (error, w1)
  else
    execCommand env
      ["systemctl", if isMaster ≠ 0 then "enable" else "disable", "--now", "linstor-controller"] w1

/-- The function `updateLinstorNode` (periodic hook): a call of `gethostname`. -/
def updateLinstorNode (env : Env) (_state : State) (w : World) : Int × World :=
  let w1 := { w with hostCalls := w.hostCalls + 1, trace := w.trace ++ [.gethostname] }
  match env.gethostname w.hostCalls with
  | some errno => (if errno.code ≠ 0 then errno.neg else EINVAL.neg, w1)
  | none => (0, w1)

/-! ## Event processing -/

def removalMask : Nat := IN_DELETE_SELF ||| IN_MOVE_SELF ||| IN_UNMOUNT

/-- The `for` loop of `processPoolConfEvents` over the events of the buffer, from a
given value of `mask`: either the early `return -EIO` or the final `mask`. -/
def scanEvents (wd : Int) (mode : Nat) : List InotifyEvent → Nat → Except Int Nat
  | [], mask => .ok mask
  | event :: rest, mask =>
    if event.wd = wd then
      if event.len ≠ 0 then
        -- Event in the watched directory.
        if strncmp event.name (bytes POOL_CONF_FILE) event.len = 0 then
          scanEvents wd mode rest (mask ||| event.mask)
        else scanEvents wd mode rest mask
      else
        -- Directory or watched file event.
        if mode = PROCESS_MODE_DEFAULT then scanEvents wd mode rest (mask ||| event.mask)
        else if event.mask &&& removalMask ≠ 0 then .error EIO.neg
        else scanEvents wd mode rest mask
    else scanEvents wd mode rest mask

/-- The function `processPoolConfEvents`, called when `poll` reported input: the
return code, the value of `*process` and the world afterwards. -/
def processPoolConfEvents (env : Env) (inotifyFd : Int) (wd : Int) (mode : Nat)
    (process : Bool) (r : ReadOutcome) (w : World) : Int × Bool × World :=
  match r with
  | .fails errno => (errno.neg, process, w)
  | .batch events =>
    match scanEvents wd mode events 0 with
    | .error ret => (ret, process, w)
    | .ok mask =>
      if mode = PROCESS_MODE_DEFAULT then
        if mask = 0 then (0, process, w)
        else if mask &&& removalMask ≠ 0 then
          ( EIO.neg, process, inotify_rm_watch inotifyFd wd w)
        else
          let u := updateLinstorServices env w
          (u.1, process, u.2)
      else
        if mask &&& (IN_CREATE ||| IN_MOVED_TO) ≠ 0 then (0, false, w)
        else (0, process, w)

/-- The system call `poll` on the inotify descriptor with the given timeout. -/
def poll (env : Env) (fd : Int) (timeout : Int) (w : World) : PollOutcome × World :=
  (env.poll w.pollCalls,
   { w with pollCalls := w.pollCalls + 1, trace := w.trace ++ [.poll fd timeout] })

/-- The head of the loop body of `waitAndProcessEvents`, up to the call of `poll`:
the timeout to pass to `poll`, the new value of `previousTime` and the world. -/
def pollBudget (env : Env) (state : State) (previousTime : Timespec) (w : World) :
    Int × Timespec × World :=
  let t := getCurrentTime env w
  let currentTime := t.1
  let elapsedTime := convertToMilliseconds (getTimeDiff currentTime previousTime)
  if elapsedTime ≥ POLL_TIMEOUT then
    let n := updateLinstorNode env state t.2
    let t2 := getCurrentTime env n.2
    (POLL_TIMEOUT, t2.1, t2.2)
  else (toInt32 (POLL_TIMEOUT - elapsedTime), previousTime, t.2)

/-- The `do ... while (ret >= 0 && process)` loop of `waitAndProcessEvents`, entered
with the current values of `previousTime`, `ret` and `process`. -/
def waitAndProcessEventsLoop (env : Env) (state : State) (wd : Int) (mode : Nat) :
    Nat → Timespec → Int → Bool → World → Option (Int × World)
  | 0, _, _, _, _ => none
  | fuel + 1, previousTime, ret, process, w =>
    let timed := pollBudget env state previousTime w
    let timeout := timed.1
    let previousTime := timed.2.1
    let p := poll env state.inotifyFd timeout timed.2.2
    let body : Int × Bool × World :=
      match p.1 with
      | .failed errno =>
        if errno = EAGAIN then (ret, process, p.2) else (errno.neg, process, p.2)
      | .timedOut => (ret, process, p.2)
      | .ready r => processPoolConfEvents env state.inotifyFd wd mode process r p.2
    if body.1 ≥ 0 ∧ body.2.1 = true then
      waitAndProcessEventsLoop env state wd mode fuel previousTime body.1 body.2.1 body.2.2
    else some (body.1, body.2.2)

def waitAndProcessEvents (env : Env) (state : State) (fuel : Nat) (wd : Int) (mode : Nat)
    (w : World) : Option (Int × World) :=
  let t := getCurrentTime env w
  waitAndProcessEventsLoop env state wd mode fuel t.1 0 true t.2

def waitAndProcessFileEvents (env : Env) (state : State) (fuel : Nat) (wd : Int)
    (w : World) : Option (Int × World) :=
  waitAndProcessEvents env state fuel wd PROCESS_MODE_DEFAULT w

def waitAndProcessDirEvents (env : Env) (state : State) (fuel : Nat) (wd : Int)
    (w : World) : Option (Int × World) :=
  waitAndProcessEvents env state fuel wd PROCESS_MODE_WAIT_FILE_CREATION w

/-! ## Waiting for the creation of the pool configuration -/

def dirWatchMask : Nat := IN_MOVED_TO ||| IN_CREATE ||| IN_MOVE_SELF ||| IN_DELETE_SELF
def fileWatchMask : Nat := IN_MODIFY ||| IN_MOVE_SELF ||| IN_DELETE_SELF

/-- The inner `do ... while` loop of `waitForPoolConfCreation`: reconcile, and while
that fails with `-ENOENT` or `-EIO` wait for directory events and reconcile again. -/
def reconcileLoop (env : Env) (state : State) (wdDir : Int) :
    Nat → World → Option (Int × World)
  | 0, _ => none
  | fuel + 1, w =>
    -- Update LINSTOR services...
    let u := updateLinstorServices env w
    if u.1 = ENOENT.neg ∨ u.1 = EIO.neg then
      match waitAndProcessDirEvents env state fuel wdDir u.2 with
      | none => none
      | some (ret, w1) => if ret = 0 then reconcileLoop env state wdDir fuel w1 else some (ret, w1)
    else some u

/-- The outer `do ... while (ret == -ENOENT)` loop of `waitForPoolConfCreation`: the
return code, the value of `*wdFile` and the world at the exit of the loop. -/
def creationLoop (env : Env) (state : State) (wdDir : Int) :
    Nat → Int → World → Option (Int × Int × World)
  | 0, _, _ => none
  | fuel + 1, wdFile, w =>
    match reconcileLoop env state wdDir fuel w with
    | none => none
    | some (ret, w1) =>
      -- The services have been updated, now we must add a new watch on the pool
      -- config file directly.
      let added : Int × Int × World :=
        if ret = 0 then
          let a := addInotifyWatch env state.inotifyFd POOL_CONF_ABS_FILE fileWatchMask w1
          (if a.1 < 0 then a.1 else ret, a.1, a.2)
        else (ret, wdFile, w1)
      if added.1 = ENOENT.neg then creationLoop env state wdDir fuel added.2.1 added.2.2
      else some added

/-- The function `waitForPoolConfCreation(state, &wdFile)`, `wdFile` being the value
held by the caller's variable on entry: the return code, the value of `*wdFile` and
the world afterwards. -/
def waitForPoolConfCreation (env : Env) (state : State) (fuel : Nat) (wdFile : Int)
    (w : World) : Option (Int × Int × World) :=
  let a := addInotifyWatch env state.inotifyFd POOL_CONF_DIR dirWatchMask w
  let wdDir := a.1
  if wdDir < 0 then some (wdDir, wdFile, a.2)
  else
    match creationLoop env state wdDir fuel wdFile a.2 with
    | none => none
    | some (ret, wdFile1, w1) => some (ret, wdFile1, inotify_rm_watch state.inotifyFd wdDir w1)

/-! ## Main loop -/

/-- The `while (!ret || ret == -ENOENT || ret == -EIO)` loop of `main`, entered with
the current value of `ret`; `uninit` is the indeterminate value of the variable
`wdFile` declared in the loop body. -/
def mainLoop (env : Env) (state : State) (uninit : Int) :
    Nat → Int → World → Option (Int × World)
  | 0, _, _ => none
  | fuel + 1, ret, w =>
    if ret = 0 ∨ ret = ENOENT.neg ∨ ret = EIO.neg then
      match waitForPoolConfCreation env state fuel uninit w with
      | none => none
      | some (ret1, wdFile, w1) =>
        if ret1 < 0 then
          -- If the pool config dir cannot be watched or accessed, we consider it is
          -- a fatal error.
          some (ret1, w1)
        else
          match waitAndProcessFileEvents env state fuel wdFile w1 with
          | none => none
          | some (ret2, w2) => mainLoop env state uninit fuel ret2 w2
    else some (ret, w)

/-- The function `main`: the exit code and the world at exit. -/
def main (env : Env) (uninit : Int) (fuel : Nat) (w : World) : Option (Int × World) :=
  let inotifyFd := createInotifyInstance env
  if inotifyFd < 0 then some (-inotifyFd, w)
  else
    let state : State := { inotifyFd := inotifyFd }
    let n := updateLinstorNode env state w
    match mainLoop env state uninit fuel 0 n.2 with
    | none => none
    | some (ret, w1) => some (-ret, { w1 with trace := w1.trace ++ [.close inotifyFd] })

/-! ## Specification-side definitions -/

namespace Spec

/-- Whitespace characters: space, tab, newline, vertical tab, form feed, carriage return. -/
def whitespace (c : Nat) : Prop := c ∈ [32, 9, 10, 11, 12, 13]

/-- The line begins at offset 0 with the six characters "master" and the character
that follows is end-of-string (the line stops there, or holds a NUL byte there) or a
whitespace character. -/
def masterWord (line : List Nat) : Prop :=
  ∃ rest, line = [109, 97, 115, 116, 101, 114] ++ rest ∧
    (rest = [] ∨ ∃ c tl, rest = c :: tl ∧ (c = 0 ∨ whitespace c))

/-- The enable verb of the ServiceController. -/
def enableVerb : List String := ["systemctl", "enable", "--now", "linstor-controller"]

/-- The disable verb of the ServiceController. -/
def disableVerb : List String := ["systemctl", "disable", "--now", "linstor-controller"]

/-- The event mask carries delete-self, move-self or unmount. -/
def carriesRemoval (mask : Nat) : Prop :=
  mask &&& IN_DELETE_SELF ≠ 0 ∨ mask &&& IN_MOVE_SELF ≠ 0 ∨ mask &&& IN_UNMOUNT ≠ 0

/-- The event mask carries create or moved-to. -/
def carriesCreation (mask : Nat) : Prop :=
  mask &&& IN_CREATE ≠ 0 ∨ mask &&& IN_MOVED_TO ≠ 0

/-- The name attached to an event: the bytes of its name field before the first NUL. -/
def eventName (e : InotifyEvent) : List Nat := e.name.takeWhile (fun c => c ≠ 0)

/-- The overflow indicator: inotify queues it with watch descriptor `-1`. -/
def overflowEvent (e : InotifyEvent) : Prop := e.wd = -1 ∧ e.mask &&& IN_Q_OVERFLOW ≠ 0

instance (c : Nat) : Decidable (whitespace c) := by
  unfold whitespace
  infer_instance

instance (mask : Nat) : Decidable (carriesRemoval mask) := by
  unfold carriesRemoval
  infer_instance

instance (mask : Nat) : Decidable (carriesCreation mask) := by
  unfold carriesCreation
  infer_instance

instance (e : InotifyEvent) : Decidable (overflowEvent e) := by
  unfold overflowEvent
  infer_instance

/-- Reconciliation fails to open or to read the configuration file. -/
def unreadable : PoolConf → Prop
  | .openFails _ => True
  | .readFails => True
  | .content data => fgets 512 data = none

/-- The code of a failure to open or read the configuration file: the negated `errno`
of a failed open, `-EIO` for a failed read. -/
def failureCode : PoolConf → Int
  | .openFails errno => -(errno.code : Int)
  | _ => -5

instance (conf : PoolConf) : Decidable (unreadable conf) := by
  cases conf <;> unfold unreadable <;> infer_instance

/-- The timespec is normalized: `0 <= tv_nsec < 10^9`. -/
def normalized (t : Timespec) : Prop := 0 ≤ t.tv_nsec ∧ t.tv_nsec < 1000000000

/-- The total value of a timespec in nanoseconds. -/
def nanos (t : Timespec) : Int := t.tv_sec * 1000000000 + t.tv_nsec

instance (t : Timespec) : Decidable (normalized t) := by
  unfold normalized
  infer_instance

end Spec

/-- Actions performed between two worlds of one run. -/
def actionsSince (w w1 : World) : List Action := w1.trace.drop w.trace.length

/-- An operating system given by finite scripts: the n-th outcome of a call is the
n-th entry of its script, and the given default after the end of the script. -/
def Env.scripted (clock : List Timespec) (confs : List PoolConf) (confDefault : PoolConf)
    (adds : List SysResult) (polls : List PollOutcome) (pollDefault : PollOutcome) : Env :=
  { clock_gettime := fun n => clock.getD n { tv_sec := 0, tv_nsec := 0 }
    poolConf := fun n => confs.getD n confDefault
    exec := fun _ => .waited 0
    gethostname := fun _ => none
    inotify_init1 := .ok 3
    inotify_add_watch := fun n => adds.getD n (.ok (n + 1))
    poll := fun n => polls.getD n pollDefault }

/-- No action of the list is a call of `inotify_rm_watch`. -/
def noRmWatch (l : List Action) : Prop :=
  ∀ a ∈ l, ∀ (fd wd : Int), a ≠ Action.inotify_rm_watch fd wd

/-- The world `w1` follows `w` in a run, and no call of `inotify_rm_watch` was made in
between. -/
def followsWithoutRm (w w1 : World) : Prop :=
  ∃ l, w1.trace = w.trace ++ l ∧ noRmWatch l

/-! ## Modes of the state machine -/

/-- The run of `main` from the point where it is in WatchingFile with the file-level
watch handle `wdFile`: the call of `waitAndProcessFileEvents` in the main loop, then
the main loop with its result. -/
def watchingFile (env : Env) (state : State) (uninit : Int) (fuel : Nat) (wdFile : Int)
    (w : World) : Option (Int × World) :=
  match waitAndProcessFileEvents env state fuel wdFile w with
  | none => none
  | some (ret2, w2) => mainLoop env state uninit fuel ret2 w2

/-- The run of `main` from the point where it enters AwaitingFileCreation: the body of
the main loop, which starts with the call of `waitForPoolConfCreation`. -/
def awaitingFileCreation (env : Env) (state : State) (uninit : Int) (fuel : Nat)
    (w : World) : Option (Int × World) :=
  match waitForPoolConfCreation env state fuel uninit w with
  | none => none
  | some (ret1, wdFile, w1) =>
    if ret1 < 0 then some (ret1, w1) else watchingFile env state uninit fuel wdFile w1

/-- The world right after the call of `poll` in an iteration of the loop of
`waitAndProcessEvents` entered with `previousTime` in world `w`. -/
def afterPoll (env : Env) (state : State) (previousTime : Timespec) (w : World) : World :=
  (poll env state.inotifyFd (pollBudget env state previousTime w).1
    (pollBudget env state previousTime w).2.2).2

/-! ## Events -/

/-- The event adds its mask to the mask accumulated by `processPoolConfEvents`. -/
def counted (wd : Int) (mode : Nat) (e : InotifyEvent) : Prop :=
  e.wd = wd ∧
    ((e.len ≠ 0 ∧ strncmp e.name (bytes POOL_CONF_FILE) e.len = 0) ∨
     (e.len = 0 ∧ mode = PROCESS_MODE_DEFAULT))

/-- The event makes `processPoolConfEvents` return `-EIO` from inside its loop. -/
def dirRemoval (wd : Int) (mode : Nat) (e : InotifyEvent) : Prop :=
  e.wd = wd ∧ e.len = 0 ∧ mode ≠ PROCESS_MODE_DEFAULT ∧ e.mask &&& removalMask ≠ 0

instance (wd : Int) (mode : Nat) (e : InotifyEvent) : Decidable (counted wd mode e) := by
  unfold counted
  infer_instance

instance (wd : Int) (mode : Nat) (e : InotifyEvent) : Decidable (dirRemoval wd mode e) := by
  unfold dirRemoval
  infer_instance

/-! ## Scenarios -/

/-- A modify event of the file watch with handle 2. -/
def modifyEvent : InotifyEvent := { wd := 2, mask := IN_MODIFY, cookie := 0, name := [] }

/-- A delete-self event of the directory watch with handle 3. -/
def dirDeletedEvent : InotifyEvent := { wd := 3, mask := IN_DELETE_SELF, cookie := 0, name := [] }

/-- The file holds a master line at startup, is then truncated (a modify event, and an
empty file from then on), and at last the directory is deleted.  The watch handles
returned by `inotify_add_watch` are 1, 2, 3. -/
def truncatedEnv : Env :=
  Env.scripted [] [.content (bytes "master\n")] (.content []) []
    [.ready (.batch [modifyEvent]), .ready (.batch [dirDeletedEvent])] .timedOut

/-- The configuration file cannot be opened: permission denied. -/
def deniedEnv : Env := Env.scripted [] [] (.openFails EACCES) [] [] .timedOut

/-- The file holds a master line at startup; after a modify event it cannot be opened
any more: permission denied. -/
def deniedLaterEnv : Env :=
  Env.scripted [] [.content (bytes "master\n")] (.openFails EACCES) []
    [.ready (.batch [modifyEvent])] .timedOut

/-- The file holds a master line; the first `poll`, made in WatchingFile, is interrupted
by a signal (`errno` is EINTR). -/
def interruptedEnv : Env :=
  Env.scripted [] [] (.content (bytes "master\n")) [] [.failed EINTR] .timedOut

/-- The file holds a master line all along and no event arrives: three waits in
WatchingFile time out, each after a full interval of the clock, and the fourth is
interrupted. -/
def idleEnv : Env :=
  Env.scripted
    [{ tv_sec := 0, tv_nsec := 0 }, { tv_sec := 2, tv_nsec := 0 }, { tv_sec := 2, tv_nsec := 0 },
     { tv_sec := 4, tv_nsec := 0 }, { tv_sec := 4, tv_nsec := 0 }, { tv_sec := 6, tv_nsec := 0 },
     { tv_sec := 6, tv_nsec := 0 }, { tv_sec := 6, tv_nsec := 0 }]
    [] (.content (bytes "master\n")) []
    [.timedOut, .timedOut, .timedOut, .failed EINTR] .timedOut

/-- The directory `/etc/xensource` does not exist: the registration of the directory
watch fails with ENOENT. -/
def noDirEnv : Env :=
  Env.scripted [] [] (.content (bytes "master\n")) [.fails ENOENT] [] .timedOut

/-! ## Role derivation -/

theorem masterStr_eq : masterStr = [109, 97, 115, 116, 101, 114] := by decide

theorem masterLen_eq : masterLen = 6 := by decide

theorem strncmp_masterStr (line : List Nat) :
    strncmp line masterStr masterLen = 0 ↔ ∃ rest, line = masterStr ++ rest := by
  rw [masterStr_eq, masterLen_eq]
  rcases line with _ | ⟨a, _ | ⟨b, _ | ⟨c, _ | ⟨d, _ | ⟨e, _ | ⟨f, rest⟩⟩⟩⟩⟩⟩ <;>
    simp [strncmp, cAt] <;> omega

theorem isspace_ne_zero (c : Nat) : isspace c ≠ 0 ↔ Spec.whitespace c := by
  unfold isspace Spec.whitespace
  simp only [List.mem_cons, List.mem_singleton, List.not_mem_nil, or_false]
  split <;> simp <;> omega

theorem isMasterHost_of_line (data line : List Nat) (h : fgets 512 data = some line) :
    isMasterHost (.content data) =
      (if strncmp line masterStr masterLen = 0 ∧ (cAt line masterLen = 0 ∨ isspace (cAt line masterLen) ≠ 0)
        then 1 else 0, 0) := by
  have hr : readPoolConf (.content data) 512 = (0, line) := by simp [readPoolConf, h]
  unfold isMasterHost
  simp only [hr]
  by_cases h1 : strncmp line masterStr masterLen = 0
  · by_cases h2 : cAt line masterLen = 0 ∨ isspace (cAt line masterLen) ≠ 0
    · simp [h1, h2]
    · simp [h1, h2]
  · simp [h1]

theorem masterWord_iff (line : List Nat) :
    (strncmp line masterStr masterLen = 0 ∧
      (cAt line masterLen = 0 ∨ isspace (cAt line masterLen) ≠ 0)) ↔ Spec.masterWord line := by
  rw [strncmp_masterStr, isspace_ne_zero, masterStr_eq, masterLen_eq]
  unfold Spec.masterWord
  constructor
  · rintro ⟨⟨rest, rfl⟩, h2⟩
    refine ⟨rest, rfl, ?_⟩
    cases rest with
    | nil => exact Or.inl rfl
    | cons c tl =>
      right
      refine ⟨c, tl, rfl, ?_⟩
      simpa [cAt] using h2
  · rintro ⟨rest, rfl, h2⟩
    refine ⟨⟨rest, rfl⟩, ?_⟩
    rcases h2 with rfl | ⟨c, tl, rfl, hc⟩
    · left; simp [cAt]
    · simpa [cAt] using hc

/-- C1: for every first line read from the configuration file, `isMasterHost` returns
1 with error 0 exactly when the line begins with "master" followed by end-of-string or
a whitespace character, and returns 0 with error 0 in every other successful read; in
particular "master\n" gives true, "mastered\n" and "slave\n" give false. -/
theorem isMasterHost_iff_masterWord (data line : List Nat) (h : fgets 512 data = some line) :
    (isMasterHost (.content data) = (1, 0) ↔ Spec.masterWord line) ∧
    (¬ Spec.masterWord line → isMasterHost (.content data) = (0, 0)) ∧
    isMasterHost (.content (bytes "master\n")) = (1, 0) ∧
    isMasterHost (.content (bytes "mastered\n")) = (0, 0) ∧
    isMasterHost (.content (bytes "slave\n")) = (0, 0) := by
  rw [isMasterHost_of_line data line h]
  refine ⟨?_, ?_, by decide, by decide, by decide⟩
  · rw [← masterWord_iff]
    by_cases hm : strncmp line masterStr masterLen = 0 ∧
        (cAt line masterLen = 0 ∨ isspace (cAt line masterLen) ≠ 0)
    · rw [if_pos hm]
      exact ⟨fun _ => hm, fun _ => rfl⟩
    · rw [if_neg hm]
      exact ⟨fun h0 => absurd (congrArg Prod.fst h0) (by decide), fun h1 => absurd h1 hm⟩
  · rw [← masterWord_iff]
    intro hn
    rw [if_neg hn]

theorem isMasterHost_iff_masterWord_witness :
    fgets 512 (bytes "master\n") = some (bytes "master\n") ∧
    (isMasterHost (.content (bytes "master\n")) = (1, 0) ↔ Spec.masterWord (bytes "master\n")) :=
  ⟨by decide, (isMasterHost_iff_masterWord (bytes "master\n") (bytes "master\n") (by decide)).1⟩

/-! ## Reconciliation -/

theorem execCommand_world (env : Env) (argv : List String) (w : World) :
    (execCommand env argv w).2 =
      { w with execCalls := w.execCalls + 1, trace := w.trace ++ [.execCommand argv] } := by
  unfold execCommand
  cases env.exec w.execCalls <;> rfl

theorem actionsSince_append (w w1 : World) (l : List Action) (h : w1.trace = w.trace ++ l) :
    actionsSince w w1 = l := by
  simp [actionsSince, h]

theorem updateLinstorServices_of_line (env : Env) (w : World) (data line : List Nat)
    (hconf : env.poolConf w.confReads = .content data) (hline : fgets 512 data = some line) :
    updateLinstorServices env w =
      execCommand env
        ["systemctl",
         if strncmp line masterStr masterLen = 0 ∧
            (cAt line masterLen = 0 ∨ isspace (cAt line masterLen) ≠ 0) then "enable" else "disable",
         "--now", "linstor-controller"]
        { w with confReads := w.confReads + 1 } := by
  unfold updateLinstorServices
  rw [hconf, isMasterHost_of_line data line hline]
  by_cases hm : strncmp line masterStr masterLen = 0 ∧
      (cAt line masterLen = 0 ∨ isspace (cAt line masterLen) ≠ 0)
  · simp [hm]
  · simp [hm]

/-- C2: for every successful read of the configuration file, `updateLinstorServices`
issues exactly one ServiceController command, the enable verb when the line read is a
master line and the disable verb otherwise; the command depends only on the content
read, whatever the world (and so whatever was derived before). -/
theorem updateLinstorServices_issues_one_verb (env : Env) (w : World) (data line : List Nat)
    (hconf : env.poolConf w.confReads = .content data) (hline : fgets 512 data = some line) :
    (Spec.masterWord line →
      actionsSince w (updateLinstorServices env w).2 = [.execCommand Spec.enableVerb]) ∧
    (¬ Spec.masterWord line →
      actionsSince w (updateLinstorServices env w).2 = [.execCommand Spec.disableVerb]) ∧
    (updateLinstorServices env w).2.execCalls = w.execCalls + 1 ∧
    (∀ (env1 : Env) (w1 : World), env1.poolConf w1.confReads = .content data →
      actionsSince w1 (updateLinstorServices env1 w1).2 =
        actionsSince w (updateLinstorServices env w).2) := by
  have key : ∀ (env1 : Env) (w1 : World), env1.poolConf w1.confReads = .content data →
      actionsSince w1 (updateLinstorServices env1 w1).2 =
        [.execCommand ["systemctl",
          if strncmp line masterStr masterLen = 0 ∧
            (cAt line masterLen = 0 ∨ isspace (cAt line masterLen) ≠ 0) then "enable" else "disable",
          "--now", "linstor-controller"]] := by
    intro env1 w1 h1
    rw [updateLinstorServices_of_line env1 w1 data line h1 hline, execCommand_world]
    exact actionsSince_append _ _ _ rfl
  refine ⟨?_, ?_, ?_, ?_⟩
  · intro hm
    rw [key env w hconf, if_pos ((masterWord_iff line).2 hm)]
    rfl
  · intro hm
    rw [key env w hconf, if_neg (fun h => hm ((masterWord_iff line).1 h))]
    rfl
  · rw [updateLinstorServices_of_line env w data line hconf hline, execCommand_world]
  · intro env1 w1 h1
    rw [key env w hconf, key env1 w1 h1]

theorem updateLinstorServices_issues_one_verb_witness :
    actionsSince World.init
      (updateLinstorServices
        (Env.scripted [] [] (.content (bytes "master\n")) [] [] .timedOut) World.init).2 =
      [.execCommand Spec.enableVerb] :=
  (updateLinstorServices_issues_one_verb
    (Env.scripted [] [] (.content (bytes "master\n")) [] [] .timedOut) World.init
    (bytes "master\n") (bytes "master\n") rfl (by decide)).1
    ⟨[10], by decide, Or.inr ⟨10, [], rfl, Or.inr (by unfold Spec.whitespace; decide)⟩⟩

/-- C3: when the configuration file is missing (`fopen` fails with ENOENT)
reconciliation returns `-ENOENT`, and when the file is empty so that no line can be
read it returns `-EIO`; in both cases `isMasterHost` returns 0 with the error set and
no ServiceController command is issued. -/
theorem updateLinstorServices_missing_or_empty (env : Env) (w : World) :
    (env.poolConf w.confReads = .openFails ENOENT →
      readPoolConf (env.poolConf w.confReads) 512 = (-2, []) ∧
      isMasterHost (env.poolConf w.confReads) = (0, -2) ∧
      (updateLinstorServices env w).1 = -2 ∧
      actionsSince w (updateLinstorServices env w).2 = [] ∧
      (updateLinstorServices env w).2.execCalls = w.execCalls) ∧
    (env.poolConf w.confReads = .content [] →
      readPoolConf (env.poolConf w.confReads) 512 = (-5, []) ∧
      isMasterHost (env.poolConf w.confReads) = (0, -5) ∧
      (updateLinstorServices env w).1 = -5 ∧
      actionsSince w (updateLinstorServices env w).2 = [] ∧
      (updateLinstorServices env w).2.execCalls = w.execCalls) := by
  constructor
  · intro h
    have hm : isMasterHost (.openFails ENOENT) = (0, -2) := by decide
    refine ⟨by rw [h]; decide, by rw [h]; exact hm, ?_, ?_, ?_⟩ <;>
      simp [updateLinstorServices, h, hm, actionsSince]
  · intro h
    have hm : isMasterHost (.content []) = (0, -5) := by decide
    refine ⟨by rw [h]; decide, by rw [h]; exact hm, ?_, ?_, ?_⟩ <;>
      simp [updateLinstorServices, h, hm, actionsSince]

theorem updateLinstorServices_missing_or_empty_witness :
    (updateLinstorServices
        (Env.scripted [] [.openFails ENOENT, .content []] .readFails [] [] .timedOut)
        World.init).1 = -2 ∧
    (updateLinstorServices
        (Env.scripted [] [.openFails ENOENT, .content []] .readFails [] [] .timedOut)
        { World.init with confReads := 1 }).1 = -5 :=
  ⟨((updateLinstorServices_missing_or_empty
      (Env.scripted [] [.openFails ENOENT, .content []] .readFails [] [] .timedOut)
      World.init).1 rfl).2.2.1,
   ((updateLinstorServices_missing_or_empty
      (Env.scripted [] [.openFails ENOENT, .content []] .readFails [] [] .timedOut)
      { World.init with confReads := 1 }).2 rfl).2.2.1⟩

/-! ## Event batches -/

theorem lor_eq_zero (a b : Nat) : a ||| b = 0 ↔ a = 0 ∧ b = 0 := by
  constructor
  · intro h
    have hb : ∀ i, a.testBit i = false ∧ b.testBit i = false := by
      intro i
      have := congrArg (fun x => x.testBit i) h
      simpa [Nat.testBit_or] using this
    exact ⟨Nat.eq_of_testBit_eq (fun i => by simp [(hb i).1]),
           Nat.eq_of_testBit_eq (fun i => by simp [(hb i).2])⟩
  · rintro ⟨rfl, rfl⟩
    rfl

theorem lor_and_ne_zero (a b k : Nat) :
    (a ||| b) &&& k ≠ 0 ↔ a &&& k ≠ 0 ∨ b &&& k ≠ 0 := by
  rw [Nat.and_comm, Nat.and_or_distrib_left, Ne, lor_eq_zero, not_and_or,
    Nat.and_comm k a, Nat.and_comm k b]

theorem and_lor_ne_zero (x a b : Nat) :
    x &&& (a ||| b) ≠ 0 ↔ x &&& a ≠ 0 ∨ x &&& b ≠ 0 := by
  rw [Nat.and_or_distrib_left, Ne, lor_eq_zero, not_and_or]

theorem scanEvents_error (wd : Int) (mode : Nat) (events : List InotifyEvent)
    (h : ∃ e ∈ events, dirRemoval wd mode e) (m : Nat) :
    scanEvents wd mode events m = .error EIO.neg := by
  induction events generalizing m with
  | nil => simp at h
  | cons e rest ih =>
    by_cases he : dirRemoval wd mode e
    · obtain ⟨h1, h2, h3, h4⟩ := he
      simp [scanEvents, h1, h2, h3, h4]
    · have hr : ∃ e ∈ rest, dirRemoval wd mode e := by
        obtain ⟨x, hx, hd⟩ := h
        rcases List.mem_cons.1 hx with rfl | hx
        · exact absurd hd he
        · exact ⟨x, hx, hd⟩
      unfold scanEvents
      split
      · split
        · split <;> exact ih hr _
        · split
          · exact ih hr _
          · split
            · rfl
            · exact ih hr _
      · exact ih hr _

theorem scanEvents_ok (wd : Int) (mode : Nat) (events : List InotifyEvent)
    (h : ∀ e ∈ events, ¬ dirRemoval wd mode e) (m : Nat) :
    ∃ mask, scanEvents wd mode events m = .ok mask ∧
      (∀ k, mask &&& k ≠ 0 ↔
        (m &&& k ≠ 0 ∨ ∃ e ∈ events, counted wd mode e ∧ e.mask &&& k ≠ 0)) ∧
      (mask ≠ 0 ↔ (m ≠ 0 ∨ ∃ e ∈ events, counted wd mode e ∧ e.mask ≠ 0)) := by
  induction events generalizing m with
  | nil => exact ⟨m, rfl, by simp, by simp⟩
  | cons e rest ih =>
    have hrest : ∀ x ∈ rest, ¬ dirRemoval wd mode x :=
      fun x hx => h x (List.mem_cons_of_mem _ hx)
    have he : ¬ dirRemoval wd mode e := h e (List.mem_cons_self _ _)
    by_cases hc : counted wd mode e
    · -- the event is counted: the scan goes on from `m ||| e.mask`
      obtain ⟨mask, hs, hk, h0⟩ := ih hrest (m ||| e.mask)
      have hstep : scanEvents wd mode (e :: rest) m = scanEvents wd mode rest (m ||| e.mask) := by
        obtain ⟨h1, h2 | h2⟩ := hc
        · simp [scanEvents, h1, h2.1, h2.2]
        · simp [scanEvents, h1, h2.1, h2.2]
      refine ⟨mask, by rw [hstep, hs], ?_, ?_⟩
      · intro k
        rw [hk k, lor_and_ne_zero]
        constructor
        · rintro ((h1 | h1) | ⟨x, hx, hx2⟩)
          · exact Or.inl h1
          · exact Or.inr ⟨e, List.mem_cons_self _ _, hc, h1⟩
          · exact Or.inr ⟨x, List.mem_cons_of_mem _ hx, hx2⟩
        · rintro (h1 | ⟨x, hx, hx2⟩)
          · exact Or.inl (Or.inl h1)
          · rcases List.mem_cons.1 hx with rfl | hx
            · exact Or.inl (Or.inr hx2.2)
            · exact Or.inr ⟨x, hx, hx2⟩
      · rw [h0, Ne, lor_eq_zero, not_and_or]
        constructor
        · rintro ((h1 | h1) | ⟨x, hx, hx2⟩)
          · exact Or.inl h1
          · exact Or.inr ⟨e, List.mem_cons_self _ _, hc, h1⟩
          · exact Or.inr ⟨x, List.mem_cons_of_mem _ hx, hx2⟩
        · rintro (h1 | ⟨x, hx, hx2⟩)
          · exact Or.inl (Or.inl h1)
          · rcases List.mem_cons.1 hx with rfl | hx
            · exact Or.inl (Or.inr hx2.2)
            · exact Or.inr ⟨x, hx, hx2⟩
    · -- the event is skipped
      obtain ⟨mask, hs, hk, h0⟩ := ih hrest m
      have hstep : scanEvents wd mode (e :: rest) m = scanEvents wd mode rest m := by
        unfold counted at hc
        unfold dirRemoval at he
        by_cases h1 : e.wd = wd
        · by_cases h2 : e.len = 0
          · by_cases h3 : mode = PROCESS_MODE_DEFAULT
            · exact absurd ⟨h1, Or.inr ⟨h2, h3⟩⟩ hc
            · have h4 : e.mask &&& removalMask = 0 := by
                by_contra h4
                exact he ⟨h1, h2, h3, h4⟩
              simp [scanEvents, h1, h2, h3, h4]
          · have h3 : ¬ strncmp e.name (bytes POOL_CONF_FILE) e.len = 0 :=
              fun h3 => hc ⟨h1, Or.inl ⟨h2, h3⟩⟩
            simp [scanEvents, h1, h2, h3]
        · simp [scanEvents, h1]
      refine ⟨mask, by rw [hstep, hs], ?_, ?_⟩
      · intro k
        rw [hk k]
        constructor
        · rintro (h1 | ⟨x, hx, hx2⟩)
          · exact Or.inl h1
          · exact Or.inr ⟨x, List.mem_cons_of_mem _ hx, hx2⟩
        · rintro (h1 | ⟨x, hx, hx2⟩)
          · exact Or.inl h1
          · rcases List.mem_cons.1 hx with rfl | hx
            · exact absurd hx2.1 hc
            · exact Or.inr ⟨x, hx, hx2⟩
      · rw [h0]
        constructor
        · rintro (h1 | ⟨x, hx, hx2⟩)
          · exact Or.inl h1
          · exact Or.inr ⟨x, List.mem_cons_of_mem _ hx, hx2⟩
        · rintro (h1 | ⟨x, hx, hx2⟩)
          · exact Or.inl h1
          · rcases List.mem_cons.1 hx with rfl | hx
            · exact absurd hx2.1 hc
            · exact Or.inr ⟨x, hx, hx2⟩

theorem carriesRemoval_iff (mask : Nat) :
    mask &&& removalMask ≠ 0 ↔ Spec.carriesRemoval mask := by
  unfold removalMask Spec.carriesRemoval
  rw [and_lor_ne_zero, and_lor_ne_zero, or_assoc]

theorem carriesCreation_iff (mask : Nat) :
    mask &&& (IN_CREATE ||| IN_MOVED_TO) ≠ 0 ↔ Spec.carriesCreation mask := by
  unfold Spec.carriesCreation
  rw [and_lor_ne_zero]

theorem wait_ne_default : PROCESS_MODE_WAIT_FILE_CREATION ≠ PROCESS_MODE_DEFAULT := by decide

theorem zero_and_eq (k : Nat) : (0 : Nat) &&& k = 0 := by simp

/-- In WatchingFile mode a batch holding a nameless event of the watch that carries a
removal flag makes `processPoolConfEvents` remove the watch and return `-EIO`. -/
theorem processPoolConfEvents_default_removal (env : Env) (fd wd : Int)
    (events : List InotifyEvent)
    (h : ∃ e ∈ events, e.wd = wd ∧ e.name = [] ∧ e.mask &&& removalMask ≠ 0)
    (process : Bool) (w : World) :
    processPoolConfEvents env fd wd PROCESS_MODE_DEFAULT process (.batch events) w =
      ( EIO.neg, process, inotify_rm_watch fd wd w) := by
  obtain ⟨mask, hs, hk, h0⟩ :=
    scanEvents_ok wd PROCESS_MODE_DEFAULT events (fun e _ hd => hd.2.2.1 rfl) 0
  obtain ⟨e, he, h1, h2, h3⟩ := h
  have hc : counted wd PROCESS_MODE_DEFAULT e :=
    ⟨h1, Or.inr ⟨by simp [InotifyEvent.len, h2], rfl⟩⟩
  have hm : mask &&& removalMask ≠ 0 := (hk removalMask).2 (Or.inr ⟨e, he, hc, h3⟩)
  have hz : mask ≠ 0 := by
    intro hz
    rw [hz, zero_and_eq] at hm
    exact hm rfl
  simp [processPoolConfEvents, hs, hm, hz]

/-- In WatchingFile mode a batch holding a counted event with a non-zero mask, and no
event of the watch with a removal flag, makes `processPoolConfEvents` call
`updateLinstorServices` once and return its result. -/
theorem processPoolConfEvents_default_update (env : Env) (fd wd : Int)
    (events : List InotifyEvent)
    (h : ∃ e ∈ events, counted wd PROCESS_MODE_DEFAULT e ∧ e.mask ≠ 0)
    (hno : ∀ e ∈ events, e.wd = wd → e.mask &&& removalMask = 0)
    (process : Bool) (w : World) :
    processPoolConfEvents env fd wd PROCESS_MODE_DEFAULT process (.batch events) w =
      ((updateLinstorServices env w).1, process, (updateLinstorServices env w).2) := by
  obtain ⟨mask, hs, hk, h0⟩ :=
    scanEvents_ok wd PROCESS_MODE_DEFAULT events (fun e _ hd => hd.2.2.1 rfl) 0
  have hz : mask ≠ 0 := h0.2 (Or.inr h)
  have hm : mask &&& removalMask = 0 := by
    by_contra hm
    rcases (hk removalMask).1 hm with h1 | ⟨e, he, hc, h2⟩
    · exact h1 (zero_and_eq _)
    · exact h2 (hno e he hc.1)
  simp [processPoolConfEvents, hs, hm, hz]

/-- In AwaitingFileCreation mode a batch holding a directory-removal event makes
`processPoolConfEvents` return `-EIO` and do nothing else. -/
theorem processPoolConfEvents_wait_removal (env : Env) (fd wd : Int)
    (events : List InotifyEvent)
    (h : ∃ e ∈ events, e.wd = wd ∧ e.name = [] ∧ e.mask &&& removalMask ≠ 0)
    (process : Bool) (w : World) :
    processPoolConfEvents env fd wd PROCESS_MODE_WAIT_FILE_CREATION process (.batch events) w =
      ( EIO.neg, process, w) := by
  have hd : ∃ e ∈ events, dirRemoval wd PROCESS_MODE_WAIT_FILE_CREATION e := by
    obtain ⟨e, he, h1, h2, h3⟩ := h
    exact ⟨e, he, h1, by simp [InotifyEvent.len, h2], by decide, h3⟩
  simp [processPoolConfEvents, scanEvents_error wd _ events hd 0]

/-- In AwaitingFileCreation mode a batch without directory-removal event makes
`processPoolConfEvents` return 0 and leave the world as it is; `*process` is cleared
exactly when a counted event carries create or moved-to. -/
theorem processPoolConfEvents_wait_ok (env : Env) (fd wd : Int)
    (events : List InotifyEvent)
    (h : ∀ e ∈ events, ¬ (e.wd = wd ∧ e.name = [] ∧ e.mask &&& removalMask ≠ 0))
    (w : World) :
    ∃ process1,
      processPoolConfEvents env fd wd PROCESS_MODE_WAIT_FILE_CREATION true (.batch events) w =
        (0, process1, w) ∧
      (process1 = false ↔
        ∃ e ∈ events, counted wd PROCESS_MODE_WAIT_FILE_CREATION e ∧
          e.mask &&& (IN_CREATE ||| IN_MOVED_TO) ≠ 0) := by
  have hd : ∀ e ∈ events, ¬ dirRemoval wd PROCESS_MODE_WAIT_FILE_CREATION e := by
    intro e he hr
    refine h e he ⟨hr.1, ?_, hr.2.2.2⟩
    exact List.length_eq_zero.1 hr.2.1
  obtain ⟨mask, hs, hk, h0⟩ := scanEvents_ok wd PROCESS_MODE_WAIT_FILE_CREATION events hd 0
  have hk1 := hk (IN_CREATE ||| IN_MOVED_TO)
  by_cases hm : mask &&& (IN_CREATE ||| IN_MOVED_TO) ≠ 0
  · refine ⟨false, ?_, ?_⟩
    · simp [processPoolConfEvents, hs, hm, wait_ne_default]
    · rcases hk1.1 hm with h1 | h1
      · exact absurd (zero_and_eq _) h1
      · simp only [true_iff]
        exact h1
  · refine ⟨true, ?_, ?_⟩
    · simp [processPoolConfEvents, hs, hm, wait_ne_default]
    · constructor
      · intro hf
        cases hf
      · intro h1
        exact absurd (hk1.2 (Or.inr h1)) hm

/-! ## The wait loop -/

/-- Up to the call of `poll`, an iteration of the wait loop reads the clock and may call
`gethostname`, nothing else. -/
theorem pollBudget_world (env : Env) (state : State) (prev : Timespec) (w : World) :
    (pollBudget env state prev w).2.2.pollCalls = w.pollCalls ∧
    (pollBudget env state prev w).2.2.confReads = w.confReads ∧
    (pollBudget env state prev w).2.2.execCalls = w.execCalls ∧
    (pollBudget env state prev w).2.2.addCalls = w.addCalls ∧
    (pollBudget env state prev w).2.2.watches = w.watches := by
  unfold pollBudget
  simp only [getCurrentTime, updateLinstorNode]
  split
  · cases env.gethostname w.hostCalls <;> simp
  · simp

theorem afterPoll_world (env : Env) (state : State) (prev : Timespec) (w : World) :
    (afterPoll env state prev w).pollCalls = w.pollCalls + 1 ∧
    (afterPoll env state prev w).confReads = w.confReads ∧
    (afterPoll env state prev w).execCalls = w.execCalls ∧
    (afterPoll env state prev w).addCalls = w.addCalls ∧
    (afterPoll env state prev w).watches = w.watches := by
  obtain ⟨h1, h2, h3, h4, h5⟩ := pollBudget_world env state prev w
  simp [afterPoll, poll, h1, h2, h3, h4, h5]

theorem poll_outcome (env : Env) (state : State) (prev : Timespec) (w : World) :
    (poll env state.inotifyFd (pollBudget env state prev w).1
      (pollBudget env state prev w).2.2).1 = env.poll w.pollCalls := by
  simp [poll, (pollBudget_world env state prev w).1]

/-- An iteration of the wait loop in which `poll` reports input. -/
theorem waitLoop_ready (env : Env) (state : State) (wd : Int) (mode : Nat) (fuel : Nat)
    (prev : Timespec) (ret : Int) (process : Bool) (w : World) (r : ReadOutcome)
    (h : env.poll w.pollCalls = .ready r) :
    waitAndProcessEventsLoop env state wd mode (fuel + 1) prev ret process w =
      if (processPoolConfEvents env state.inotifyFd wd mode process r
            (afterPoll env state prev w)).1 ≥ 0 ∧
         (processPoolConfEvents env state.inotifyFd wd mode process r
            (afterPoll env state prev w)).2.1 = true then
        waitAndProcessEventsLoop env state wd mode fuel (pollBudget env state prev w).2.1
          (processPoolConfEvents env state.inotifyFd wd mode process r
            (afterPoll env state prev w)).1
          (processPoolConfEvents env state.inotifyFd wd mode process r
            (afterPoll env state prev w)).2.1
          (processPoolConfEvents env state.inotifyFd wd mode process r
            (afterPoll env state prev w)).2.2
      else
        some ((processPoolConfEvents env state.inotifyFd wd mode process r
                (afterPoll env state prev w)).1,
              (processPoolConfEvents env state.inotifyFd wd mode process r
                (afterPoll env state prev w)).2.2) := by
  have hp := poll_outcome env state prev w
  rw [h] at hp
  rw [waitAndProcessEventsLoop]
  simp only [hp, afterPoll]

/-- The wait loop returns a negative result of `processPoolConfEvents` at once. -/
theorem waitLoop_ready_neg (env : Env) (state : State) (wd : Int) (mode : Nat) (fuel : Nat)
    (prev : Timespec) (ret : Int) (process : Bool) (w : World) (r : ReadOutcome)
    (h : env.poll w.pollCalls = .ready r) (c : Int) (p1 : Bool) (w1 : World)
    (hproc : processPoolConfEvents env state.inotifyFd wd mode process r
      (afterPoll env state prev w) = (c, p1, w1)) (hc : c < 0) :
    waitAndProcessEventsLoop env state wd mode (fuel + 1) prev ret process w = some (c, w1) := by
  rw [waitLoop_ready env state wd mode fuel prev ret process w r h, hproc]
  have : ¬ (c ≥ 0) := by omega
  simp [this]

theorem mainLoop_succ (env : Env) (state : State) (uninit : Int) (fuel : Nat) (ret : Int)
    (w : World) :
    mainLoop env state uninit (fuel + 1) ret w =
      if ret = 0 ∨ ret = ENOENT.neg ∨ ret = EIO.neg then
        awaitingFileCreation env state uninit fuel w
      else some (ret, w) := by
  rw [mainLoop]
  unfold awaitingFileCreation watchingFile
  rfl

/-! ## Names of directory events -/

/-- On a NUL-terminated name field, `strncmp` over the whole field against a string
without NUL is 0 exactly when the name is that string. -/
theorem strncmp_eq_zero_iff (s1 s2 : List Nat) (h1 : 0 ∈ s1) (h2 : 0 ∉ s2) :
    strncmp s1 s2 s1.length = 0 ↔ s1.takeWhile (fun c => c ≠ 0) = s2 := by
  induction s1 generalizing s2 with
  | nil => simp at h1
  | cons a t ih =>
    rw [List.length_cons, strncmp]
    cases s2 with
    | nil =>
      by_cases ha : a = 0
      · simp [cAt, ha]
      · have : (a : Int) ≠ 0 := by exact_mod_cast ha
        simp [cAt, ha, this]
    | cons b t2 =>
      have hb : b ≠ 0 := fun hb => h2 (by simp [hb])
      have ht2 : 0 ∉ t2 := fun h => h2 (List.mem_cons_of_mem _ h)
      by_cases hab : a = b
      · subst hab
        have ht : 0 ∈ t := by
          rcases List.mem_cons.1 h1 with h | h
          · exact absurd h.symm hb
          · exact h
        simp [cAt, hb, ih t2 ht ht2]
      · have : (a : Int) - (b : Int) ≠ 0 := by
          intro h
          apply hab
          omega
        by_cases ha : a = 0
        · subst ha
          simp [cAt, hb, Ne.symm hb]
        · simp [cAt, hab, this, ha]

theorem poolConfFile_bytes : bytes POOL_CONF_FILE = [112, 111, 111, 108, 46, 99, 111, 110, 102] := by
  decide

/-- In AwaitingFileCreation mode the counted events are those of the watch whose name
is exactly "pool.conf". -/
theorem counted_wait_iff (wd : Int) (e : InotifyEvent) (hnul : e.name ≠ [] → 0 ∈ e.name) :
    counted wd PROCESS_MODE_WAIT_FILE_CREATION e ↔
      (e.wd = wd ∧ Spec.eventName e = bytes "pool.conf") := by
  have hp : (0 : Nat) ∉ bytes POOL_CONF_FILE := by rw [poolConfFile_bytes]; decide
  have hpp : bytes "pool.conf" = bytes POOL_CONF_FILE := rfl
  unfold counted Spec.eventName InotifyEvent.len
  rw [hpp]
  by_cases hn : e.name = []
  · have : bytes POOL_CONF_FILE ≠ [] := by rw [poolConfFile_bytes]; simp
    simp [hn, wait_ne_default, this.symm]
  · have hlen : e.name.length ≠ 0 := fun h => hn (List.length_eq_zero.1 h)
    rw [strncmp_eq_zero_iff e.name _ (hnul hn) hp]
    simp [hlen, wait_ne_default]

/-! ## WatchingFile: removal of the file and modification -/

theorem updateLinstorServices_confReads (env : Env) (w : World) :
    (updateLinstorServices env w).2.confReads = w.confReads + 1 := by
  unfold updateLinstorServices
  simp only
  split
  · rfl
  · rw [execCommand_world]

theorem waitAndProcessFileEvents_eq (env : Env) (state : State) (fuel : Nat) (wd : Int)
    (w : World) :
    waitAndProcessFileEvents env state fuel wd w =
      waitAndProcessEventsLoop env state wd PROCESS_MODE_DEFAULT fuel
        (env.clock_gettime w.clockCalls) 0 true { w with clockCalls := w.clockCalls + 1 } :=
  rfl

theorem waitAndProcessDirEvents_eq (env : Env) (state : State) (fuel : Nat) (wd : Int)
    (w : World) :
    waitAndProcessDirEvents env state fuel wd w =
      waitAndProcessEventsLoop env state wd PROCESS_MODE_WAIT_FILE_CREATION fuel
        (env.clock_gettime w.clockCalls) 0 true { w with clockCalls := w.clockCalls + 1 } :=
  rfl

/-- C5: in WatchingFile mode, for every event batch in which at least one event of the
file watch (an event with the handle of the watch and, as for every event of a watch
on a file, no name) carries delete-self, move-self or unmount, whatever else the batch
holds and in whatever order, `processPoolConfEvents` removes the file watch and
returns `-EIO` without calling reconciliation; the wait loop returns that `-EIO`, and
`main` then enters `waitForPoolConfCreation` again instead of leaving its loop. -/
theorem watchingFile_removal_takes_precedence (env : Env) (state : State) (uninit : Int)
    (wd : Int) (events : List InotifyEvent)
    (h : ∃ e ∈ events, e.wd = wd ∧ e.name = [] ∧ Spec.carriesRemoval e.mask) :
    (∀ (process : Bool) (w : World),
      processPoolConfEvents env state.inotifyFd wd PROCESS_MODE_DEFAULT process
          (.batch events) w = ( EIO.neg, process, inotify_rm_watch state.inotifyFd wd w) ∧
      (inotify_rm_watch state.inotifyFd wd w).confReads = w.confReads ∧
      (inotify_rm_watch state.inotifyFd wd w).execCalls = w.execCalls ∧
      actionsSince w (inotify_rm_watch state.inotifyFd wd w) =
        [.inotify_rm_watch state.inotifyFd wd]) ∧
    (∀ (fuel : Nat) (prev : Timespec) (ret : Int) (process : Bool) (w : World),
      env.poll w.pollCalls = .ready (.batch events) →
      waitAndProcessEventsLoop env state wd PROCESS_MODE_DEFAULT (fuel + 1) prev ret process w =
        some ( EIO.neg, inotify_rm_watch state.inotifyFd wd (afterPoll env state prev w))) ∧
    (∀ (fuel : Nat) (w : World), env.poll w.pollCalls = .ready (.batch events) →
      ∃ w1, waitAndProcessFileEvents env state (fuel + 1) wd w = some (-5, w1) ∧
        w1.confReads = w.confReads ∧ w1.execCalls = w.execCalls ∧
        watchingFile env state uninit (fuel + 1) wd w =
          awaitingFileCreation env state uninit fuel w1) := by
  have h' : ∃ e ∈ events, e.wd = wd ∧ e.name = [] ∧ e.mask &&& removalMask ≠ 0 := by
    obtain ⟨e, he, h1, h2, h3⟩ := h
    exact ⟨e, he, h1, h2, (carriesRemoval_iff _).2 h3⟩
  have hloop : ∀ (fuel : Nat) (prev : Timespec) (ret : Int) (process : Bool) (w : World),
      env.poll w.pollCalls = .ready (.batch events) →
      waitAndProcessEventsLoop env state wd PROCESS_MODE_DEFAULT (fuel + 1) prev ret process w =
        some ( EIO.neg, inotify_rm_watch state.inotifyFd wd (afterPoll env state prev w)) := by
    intro fuel prev ret process w hp
    exact waitLoop_ready_neg env state wd _ fuel prev ret process w _ hp _ _ _
      (processPoolConfEvents_default_removal env state.inotifyFd wd events h' process _)
      (by decide)
  refine ⟨?_, hloop, ?_⟩
  · intro process w
    refine ⟨processPoolConfEvents_default_removal env state.inotifyFd wd events h' process w,
      rfl, rfl, ?_⟩
    exact actionsSince_append _ _ _ rfl
  · intro fuel w hp
    have hrun := hloop fuel (env.clock_gettime w.clockCalls) 0 true
      { w with clockCalls := w.clockCalls + 1 } hp
    rw [← waitAndProcessFileEvents_eq] at hrun
    obtain ⟨-, h2, h3, -, -⟩ := afterPoll_world env state (env.clock_gettime w.clockCalls)
      { w with clockCalls := w.clockCalls + 1 }
    refine ⟨_, hrun, h2, h3, ?_⟩
    unfold watchingFile
    rw [hrun]
    simp only
    rw [mainLoop_succ]
    simp

theorem watchingFile_removal_takes_precedence_witness :
    processPoolConfEvents (Env.scripted [] [] .readFails [] [] .timedOut) 3 1
        PROCESS_MODE_DEFAULT true
        (.batch [{ wd := 1, mask := IN_MODIFY, cookie := 0, name := [] },
                 { wd := 1, mask := IN_DELETE_SELF, cookie := 0, name := [] }]) World.init =
      ( EIO.neg, true, inotify_rm_watch 3 1 World.init) :=
  ((watchingFile_removal_takes_precedence (Env.scripted [] [] .readFails [] [] .timedOut)
      { inotifyFd := 3 } 0 1
      [{ wd := 1, mask := IN_MODIFY, cookie := 0, name := [] },
       { wd := 1, mask := IN_DELETE_SELF, cookie := 0, name := [] }]
      ⟨{ wd := 1, mask := IN_DELETE_SELF, cookie := 0, name := [] }, by simp, rfl, rfl,
        Or.inl (by decide)⟩).1 true World.init).1

theorem scanEvents_skip (wd : Int) (mode : Nat) (x : InotifyEvent) (hx : x.wd ≠ wd)
    (l1 l2 : List InotifyEvent) (m : Nat) :
    scanEvents wd mode (l1 ++ x :: l2) m = scanEvents wd mode (l1 ++ l2) m := by
  induction l1 generalizing m with
  | nil => simp [scanEvents, hx]
  | cons e rest ih =>
    have ih' : ∀ m, scanEvents wd mode (rest.append (x :: l2)) m =
        scanEvents wd mode (rest.append l2) m := ih
    simp only [List.cons_append, scanEvents, List.append_eq, ih, ih']

/-- C8: in WatchingFile mode, for every event batch holding at least one modify event of
the file watch and no event of that watch carrying delete-self, move-self or unmount,
`processPoolConfEvents` calls `updateLinstorServices` exactly once and returns its
result, however many modify events and whatever other events (overflow indicators
included) the batch holds; and adding or dropping an overflow indicator in a batch
changes nothing in what `processPoolConfEvents` returns and does. -/
theorem watchingFile_modify_reconciles_once (env : Env) (state : State) (wd : Int)
    (events : List InotifyEvent)
    (hmod : ∃ e ∈ events, e.wd = wd ∧ e.name = [] ∧ e.mask &&& IN_MODIFY ≠ 0)
    (hno : ∀ e ∈ events, e.wd = wd → ¬ Spec.carriesRemoval e.mask) :
    (∀ (process : Bool) (w : World),
      processPoolConfEvents env state.inotifyFd wd PROCESS_MODE_DEFAULT process
          (.batch events) w =
        ((updateLinstorServices env w).1, process, (updateLinstorServices env w).2) ∧
      (updateLinstorServices env w).2.confReads = w.confReads + 1) ∧
    (∀ (l1 l2 : List InotifyEvent) (ovf : InotifyEvent), 0 ≤ wd → Spec.overflowEvent ovf →
      ∀ (mode : Nat) (process : Bool) (w : World),
        processPoolConfEvents env state.inotifyFd wd mode process (.batch (l1 ++ ovf :: l2)) w =
          processPoolConfEvents env state.inotifyFd wd mode process (.batch (l1 ++ l2)) w) := by
  constructor
  · intro process w
    refine ⟨?_, updateLinstorServices_confReads env w⟩
    apply processPoolConfEvents_default_update
    · obtain ⟨e, he, h1, h2, h3⟩ := hmod
      refine ⟨e, he, ⟨h1, Or.inr ⟨by simp [InotifyEvent.len, h2], rfl⟩⟩, ?_⟩
      intro h0
      rw [h0, zero_and_eq] at h3
      exact h3 rfl
    · intro e he h1
      by_contra h2
      exact hno e he h1 ((carriesRemoval_iff _).1 h2)
  · intro l1 l2 ovf hwd hovf mode process w
    have hx : ovf.wd ≠ wd := by
      rw [hovf.1]
      omega
    simp only [processPoolConfEvents, scanEvents_skip wd mode ovf hx]

theorem watchingFile_modify_reconciles_once_witness :
    processPoolConfEvents (Env.scripted [] [] (.content (bytes "master\n")) [] [] .timedOut) 3 1
        PROCESS_MODE_DEFAULT true
        (.batch [{ wd := 1, mask := IN_MODIFY, cookie := 0, name := [] },
                 { wd := -1, mask := IN_Q_OVERFLOW, cookie := 0, name := [] },
                 { wd := 1, mask := IN_MODIFY, cookie := 0, name := [] }]) World.init =
      ((updateLinstorServices
          (Env.scripted [] [] (.content (bytes "master\n")) [] [] .timedOut) World.init).1,
       true,
       (updateLinstorServices
          (Env.scripted [] [] (.content (bytes "master\n")) [] [] .timedOut) World.init).2) :=
  ((watchingFile_modify_reconciles_once
      (Env.scripted [] [] (.content (bytes "master\n")) [] [] .timedOut) { inotifyFd := 3 } 1
      [{ wd := 1, mask := IN_MODIFY, cookie := 0, name := [] },
       { wd := -1, mask := IN_Q_OVERFLOW, cookie := 0, name := [] },
       { wd := 1, mask := IN_MODIFY, cookie := 0, name := [] }]
      ⟨{ wd := 1, mask := IN_MODIFY, cookie := 0, name := [] }, by simp, rfl, rfl, by decide⟩
      (by
        intro e he _ hr
        simp only [List.mem_cons, List.mem_singleton, List.not_mem_nil, or_false] at he
        rcases he with rfl | rfl | rfl <;>
          rcases hr with hr | hr | hr <;> exact hr (by decide))).1 true World.init).1

/-! ## AwaitingFileCreation: creation of the file and removal of the directory -/

/-- C6: in AwaitingFileCreation mode, for every event batch without directory-removal
event and with every non-empty name field NUL-terminated, `processPoolConfEvents`
returns 0 and leaves the world as it is (no reconciliation), and it ends the wait
(clears `*process`) if and only if some event of the directory watch whose name is
exactly "pool.conf" carries create or moved-to. -/
theorem awaiting_wait_ends_iff_pool_conf_created (env : Env) (state : State) (wd : Int)
    (events : List InotifyEvent) (w : World)
    (hdir : ∀ e ∈ events, ¬ (e.wd = wd ∧ e.name = [] ∧ Spec.carriesRemoval e.mask))
    (hnul : ∀ e ∈ events, e.name ≠ [] → 0 ∈ e.name) :
    ∃ process1,
      processPoolConfEvents env state.inotifyFd wd PROCESS_MODE_WAIT_FILE_CREATION true
        (.batch events) w = (0, process1, w) ∧
      (process1 = false ↔
        ∃ e ∈ events, e.wd = wd ∧ Spec.eventName e = bytes "pool.conf" ∧
          Spec.carriesCreation e.mask) := by
  have hdir' : ∀ e ∈ events, ¬ (e.wd = wd ∧ e.name = [] ∧ e.mask &&& removalMask ≠ 0) := by
    intro e he hr
    exact hdir e he ⟨hr.1, hr.2.1, (carriesRemoval_iff _).1 hr.2.2⟩
  obtain ⟨process1, hp, hiff⟩ :=
    processPoolConfEvents_wait_ok env state.inotifyFd wd events hdir' w
  refine ⟨process1, hp, ?_⟩
  rw [hiff]
  constructor
  · rintro ⟨e, he, hc, hm⟩
    have := (counted_wait_iff wd e (hnul e he)).1 hc
    exact ⟨e, he, this.1, this.2, (carriesCreation_iff _).1 hm⟩
  · rintro ⟨e, he, h1, h2, hm⟩
    exact ⟨e, he, (counted_wait_iff wd e (hnul e he)).2 ⟨h1, h2⟩, (carriesCreation_iff _).2 hm⟩

theorem awaiting_wait_ends_iff_pool_conf_created_witness :
    ∃ process1,
      processPoolConfEvents (Env.scripted [] [] .readFails [] [] .timedOut) 3 1
        PROCESS_MODE_WAIT_FILE_CREATION true
        (.batch [{ wd := 1, mask := IN_CREATE, cookie := 0, name := bytes "pool.conf.tmp" ++ [0, 0, 0] },
                 { wd := 1, mask := IN_MOVED_TO, cookie := 7, name := bytes "pool.conf" ++ [0, 0, 0, 0, 0, 0, 0] }])
        World.init = (0, process1, World.init) ∧
      (process1 = false ↔
        ∃ e ∈ [({ wd := 1, mask := IN_CREATE, cookie := 0, name := bytes "pool.conf.tmp" ++ [0, 0, 0] } : InotifyEvent),
               { wd := 1, mask := IN_MOVED_TO, cookie := 7, name := bytes "pool.conf" ++ [0, 0, 0, 0, 0, 0, 0] }],
          e.wd = 1 ∧ Spec.eventName e = bytes "pool.conf" ∧ Spec.carriesCreation e.mask) :=
  awaiting_wait_ends_iff_pool_conf_created (Env.scripted [] [] .readFails [] [] .timedOut)
    { inotifyFd := 3 } 1
    [{ wd := 1, mask := IN_CREATE, cookie := 0, name := bytes "pool.conf.tmp" ++ [0, 0, 0] },
     { wd := 1, mask := IN_MOVED_TO, cookie := 7, name := bytes "pool.conf" ++ [0, 0, 0, 0, 0, 0, 0] }]
    World.init
    (by
      intro e he hr
      simp only [List.mem_cons, List.mem_singleton, List.not_mem_nil, or_false] at he
      rcases he with rfl | rfl <;> exact absurd hr.2.1 (by decide))
    (by
      intro e he _
      simp only [List.mem_cons, List.mem_singleton, List.not_mem_nil, or_false] at he
      rcases he with rfl | rfl <;> decide)

theorem addInotifyWatch_ok (env : Env) (fd : Int) (path : String) (mask : Nat) (w : World)
    (d : Nat) (h : env.inotify_add_watch w.addCalls = .ok d) :
    addInotifyWatch env fd path mask w =
      ((d : Int),
       { w with addCalls := w.addCalls + 1,
                trace := w.trace ++ [.inotify_add_watch fd path mask],
                watches := w.watches.filter (fun x => x.1 ≠ (d : Int)) ++ [((d : Int), path)] }) := by
  simp [addInotifyWatch, h]

theorem addInotifyWatch_fails (env : Env) (fd : Int) (path : String) (mask : Nat) (w : World)
    (e : Errno) (h : env.inotify_add_watch w.addCalls = .fails e) :
    addInotifyWatch env fd path mask w =
      (e.neg,
       { w with addCalls := w.addCalls + 1,
                trace := w.trace ++ [.inotify_add_watch fd path mask] }) := by
  simp [addInotifyWatch, h]

theorem updateLinstorServices_of_error (env : Env) (w : World) (c : Int)
    (h : (isMasterHost (env.poolConf w.confReads)).2 = c) (hc : c ≠ 0) :
    updateLinstorServices env w = (c, { w with confReads := w.confReads + 1 }) := by
  simp [updateLinstorServices, h, hc]

theorem Errno.neg_neg (e : Errno) : e.neg < 0 := by
  have := e.pos
  unfold Errno.neg
  omega

/-- An iteration of the inner loop of `waitForPoolConfCreation` whose reconciliation
fails with `-ENOENT` or `-EIO`: the directory events are waited for, and a non-zero
result of the wait leaves the loop. -/
theorem reconcileLoop_wait (env : Env) (state : State) (wdDir : Int) (fuel : Nat) (w : World)
    (h : (updateLinstorServices env w).1 = ENOENT.neg ∨
         (updateLinstorServices env w).1 = EIO.neg) :
    reconcileLoop env state wdDir (fuel + 1) w =
      match waitAndProcessDirEvents env state fuel wdDir (updateLinstorServices env w).2 with
      | none => none
      | some (ret, w1) =>
        if ret = 0 then reconcileLoop env state wdDir fuel w1 else some (ret, w1) := by
  rw [reconcileLoop]
  simp only [h, if_true]

/-- An iteration of the outer loop of `waitForPoolConfCreation` whose inner loop ends
with a result other than 0 and `-ENOENT`: that result is returned, no file watch is
registered. -/
theorem creationLoop_propagates (env : Env) (state : State) (wdDir : Int) (fuel : Nat)
    (wdFile : Int) (w w1 : World) (c : Int) (h0 : c ≠ 0) (h2 : c ≠ ENOENT.neg)
    (h : reconcileLoop env state wdDir fuel w = some (c, w1)) :
    creationLoop env state wdDir (fuel + 1) wdFile w = some (c, wdFile, w1) := by
  rw [creationLoop, h]
  simp [h0, h2]

/-- If the directory watch is registered, reconciliation then fails with `-ENOENT` or
`-EIO` and the first batch of the wait holds a directory-removal event, the body of the
main loop ends with `-EIO` after one reconciliation attempt and one `poll`. -/
theorem awaitingFileCreation_dir_removed (env : Env) (state : State) (uninit : Int) (d : Nat)
    (events : List InotifyEvent) (fuel : Nat) (w : World)
    (hadd : env.inotify_add_watch w.addCalls = .ok d)
    (hev : ∃ e ∈ events, e.wd = (d : Int) ∧ e.name = [] ∧ e.mask &&& removalMask ≠ 0)
    (hconf : (isMasterHost (env.poolConf w.confReads)).2 = ENOENT.neg ∨
             (isMasterHost (env.poolConf w.confReads)).2 = EIO.neg)
    (hpoll : env.poll w.pollCalls = .ready (.batch events)) :
    ∃ w1, awaitingFileCreation env state uninit (fuel + 3) w = some (-5, w1) ∧
      w1.confReads = w.confReads + 1 ∧ w1.pollCalls = w.pollCalls + 1 ∧
      w1.execCalls = w.execCalls := by
  obtain ⟨c, hc, hc2⟩ : ∃ c, (isMasterHost (env.poolConf w.confReads)).2 = c ∧
      (c = ENOENT.neg ∨ c = EIO.neg) := ⟨_, rfl, hconf⟩
  have hc0 : c ≠ 0 := by rcases hc2 with rfl | rfl <;> decide
  -- the world after the registration of the directory watch
  obtain ⟨wA, hwA, hA1, hA2⟩ : ∃ wA,
      addInotifyWatch env state.inotifyFd POOL_CONF_DIR dirWatchMask w = ((d : Int), wA) ∧
      wA.confReads = w.confReads ∧ wA.pollCalls = w.pollCalls ∧ wA.execCalls = w.execCalls :=
    ⟨_, addInotifyWatch_ok env _ _ _ w d hadd, rfl, rfl, rfl⟩
  have hu : updateLinstorServices env wA = (c, { wA with confReads := wA.confReads + 1 }) :=
    updateLinstorServices_of_error env wA c (by rw [hA1]; exact hc) hc0
  obtain ⟨wP, hwait, p1, p2, p3⟩ : ∃ wP,
      waitAndProcessEventsLoop env state (d : Int) PROCESS_MODE_WAIT_FILE_CREATION (fuel + 1)
        (env.clock_gettime wA.clockCalls) 0 true
        { wA with confReads := wA.confReads + 1, clockCalls := wA.clockCalls + 1 } =
        some (-5, wP) ∧
      wP.pollCalls = w.pollCalls + 1 ∧ wP.confReads = w.confReads + 1 ∧
      wP.execCalls = w.execCalls := by
    obtain ⟨p1, p2, p3, -, -⟩ := afterPoll_world env state (env.clock_gettime wA.clockCalls)
      { wA with confReads := wA.confReads + 1, clockCalls := wA.clockCalls + 1 }
    refine ⟨_, waitLoop_ready_neg env state (d : Int) PROCESS_MODE_WAIT_FILE_CREATION fuel
      (env.clock_gettime wA.clockCalls) 0 true
      { wA with confReads := wA.confReads + 1, clockCalls := wA.clockCalls + 1 }
      (.batch events) (by rw [← hpoll, ← hA2.1]) _ _ _
      (processPoolConfEvents_wait_removal env state.inotifyFd (d : Int) events hev true _)
      (by decide), ?_, ?_, ?_⟩
    · rw [p1]; simp [hA2.1]
    · rw [p2]; simp [hA1]
    · rw [p3]; simp [hA2.2]
  have hrec : reconcileLoop env state (d : Int) (fuel + 2) wA = some (-5, wP) := by
    rw [reconcileLoop_wait env state (d : Int) (fuel + 1) wA (by rw [hu]; exact hc2), hu,
      waitAndProcessDirEvents_eq]
    simp only
    rw [hwait]
    rfl
  have hcre := creationLoop_propagates env state (d : Int) (fuel + 2) uninit wA _ (-5)
    (by decide) (by decide) hrec
  refine ⟨inotify_rm_watch state.inotifyFd (d : Int) wP, ?_, p2, p1, p3⟩
  unfold awaitingFileCreation waitForPoolConfCreation
  simp only [hwA]
  have hd : ¬ ((d : Int) < 0) := by omega
  rw [if_neg hd, hcre]
  rfl

theorem updateLinstorNode_world (env : Env) (state : State) (w : World) :
    (updateLinstorNode env state w).2 =
      { w with hostCalls := w.hostCalls + 1, trace := w.trace ++ [.gethostname] } := by
  unfold updateLinstorNode
  cases env.gethostname w.hostCalls <;> rfl

/-- C7: if, while in AwaitingFileCreation, a batch holds a nameless event of the
directory watch carrying delete-self, move-self or unmount (whatever else it holds,
a create or moved-to event for pool.conf before or after it included), then
`processPoolConfEvents` returns `-EIO` and does nothing else, the wait loop returns it,
the loops of `waitForPoolConfCreation` return it without another reconciliation, the
main loop ends and `main` returns the exit code 5. -/
theorem awaiting_directory_removal_is_fatal (env : Env) (state : State) (uninit : Int)
    (d : Nat) (events : List InotifyEvent)
    (h : ∃ e ∈ events, e.wd = (d : Int) ∧ e.name = [] ∧ Spec.carriesRemoval e.mask) :
    (∀ (process : Bool) (w : World),
      processPoolConfEvents env state.inotifyFd (d : Int) PROCESS_MODE_WAIT_FILE_CREATION
        process (.batch events) w = (-5, process, w)) ∧
    (∀ (fuel : Nat) (prev : Timespec) (ret : Int) (process : Bool) (w : World),
      env.poll w.pollCalls = .ready (.batch events) →
      waitAndProcessEventsLoop env state (d : Int) PROCESS_MODE_WAIT_FILE_CREATION (fuel + 1)
        prev ret process w = some (-5, afterPoll env state prev w)) ∧
    (∀ (fuel : Nat) (w w1 : World),
      ((updateLinstorServices env w).1 = ENOENT.neg ∨
        (updateLinstorServices env w).1 = EIO.neg) →
      waitAndProcessDirEvents env state fuel (d : Int) (updateLinstorServices env w).2 =
        some (-5, w1) →
      reconcileLoop env state (d : Int) (fuel + 1) w = some (-5, w1)) ∧
    (∀ (fuel : Nat) (wdFile : Int) (w w1 : World),
      reconcileLoop env state (d : Int) fuel w = some (-5, w1) →
      creationLoop env state (d : Int) (fuel + 1) wdFile w = some (-5, wdFile, w1)) ∧
    (∀ (fuel : Nat) (ret : Int) (w : World),
      (ret = 0 ∨ ret = ENOENT.neg ∨ ret = EIO.neg) →
      env.inotify_add_watch w.addCalls = .ok d →
      ((isMasterHost (env.poolConf w.confReads)).2 = ENOENT.neg ∨
        (isMasterHost (env.poolConf w.confReads)).2 = EIO.neg) →
      env.poll w.pollCalls = .ready (.batch events) →
      ∃ w1, mainLoop env state uninit (fuel + 4) ret w = some (-5, w1) ∧
        w1.confReads = w.confReads + 1 ∧ w1.pollCalls = w.pollCalls + 1 ∧
        w1.execCalls = w.execCalls) ∧
    (∀ (fuel : Nat) (fd : Nat) (w : World),
      env.inotify_init1 = .ok fd →
      env.inotify_add_watch w.addCalls = .ok d →
      ((isMasterHost (env.poolConf w.confReads)).2 = ENOENT.neg ∨
        (isMasterHost (env.poolConf w.confReads)).2 = EIO.neg) →
      env.poll w.pollCalls = .ready (.batch events) →
      ∃ w1, main env uninit (fuel + 4) w = some (5, w1) ∧ (5 : Int) ≠ 0 ∧
        w1.confReads = w.confReads + 1) := by
  have h' : ∃ e ∈ events, e.wd = (d : Int) ∧ e.name = [] ∧ e.mask &&& removalMask ≠ 0 := by
    obtain ⟨e, he, h1, h2, h3⟩ := h
    exact ⟨e, he, h1, h2, (carriesRemoval_iff _).2 h3⟩
  have hbody : ∀ (st : State) (fuel : Nat) (ret : Int) (w : World),
      (ret = 0 ∨ ret = ENOENT.neg ∨ ret = EIO.neg) →
      env.inotify_add_watch w.addCalls = .ok d →
      ((isMasterHost (env.poolConf w.confReads)).2 = ENOENT.neg ∨
        (isMasterHost (env.poolConf w.confReads)).2 = EIO.neg) →
      env.poll w.pollCalls = .ready (.batch events) →
      ∃ w1, mainLoop env st uninit (fuel + 4) ret w = some (-5, w1) ∧
        w1.confReads = w.confReads + 1 ∧ w1.pollCalls = w.pollCalls + 1 ∧
        w1.execCalls = w.execCalls := by
    intro st fuel ret w hret hadd hconf hpoll
    obtain ⟨w1, hw1, q⟩ :=
      awaitingFileCreation_dir_removed env st uninit d events fuel w hadd h' hconf hpoll
    refine ⟨w1, ?_, q⟩
    rw [mainLoop_succ, if_pos hret, hw1]
  refine ⟨?_, ?_, ?_, ?_, hbody state, ?_⟩
  · intro process w
    exact processPoolConfEvents_wait_removal env state.inotifyFd (d : Int) events h' process w
  · intro fuel prev ret process w hp
    exact waitLoop_ready_neg env state (d : Int) _ fuel prev ret process w _ hp _ _ _
      (processPoolConfEvents_wait_removal env state.inotifyFd (d : Int) events h' process _)
      (by decide)
  · intro fuel w w1 hu hwait
    rw [reconcileLoop_wait env state (d : Int) fuel w hu, hwait]
    rfl
  · intro fuel wdFile w w1 hrec
    exact creationLoop_propagates env state (d : Int) fuel wdFile w w1 (-5) (by decide)
      (by decide) hrec
  · intro fuel fd w hinit hadd hconf hpoll
    obtain ⟨w1, hw1, q, -, -⟩ := hbody { inotifyFd := (fd : Int) } fuel 0
      (updateLinstorNode env { inotifyFd := (fd : Int) } w).2 (Or.inl rfl)
      (by rw [updateLinstorNode_world]; exact hadd)
      (by rw [updateLinstorNode_world]; exact hconf)
      (by rw [updateLinstorNode_world]; exact hpoll)
    refine ⟨{ w1 with trace := w1.trace ++ [.close (fd : Int)] }, ?_, by decide, ?_⟩
    · unfold main createInotifyInstance
      simp only [hinit]
      have hfd : ¬ ((fd : Int) < 0) := by omega
      rw [if_neg hfd, hw1]
      rfl
    · show w1.confReads = _
      rw [q, updateLinstorNode_world]

theorem awaiting_directory_removal_is_fatal_witness :
    ∃ w1, main
      (Env.scripted [] [] (.openFails ENOENT) []
        [.ready (.batch
          [{ wd := 1, mask := IN_CREATE, cookie := 0, name := bytes "pool.conf" ++ [0, 0, 0, 0, 0, 0, 0] },
           { wd := 1, mask := IN_DELETE_SELF, cookie := 0, name := [] }])] .timedOut)
      0 4 World.init = some (5, w1) ∧ (5 : Int) ≠ 0 ∧ w1.confReads = World.init.confReads + 1 :=
  (awaiting_directory_removal_is_fatal
    (Env.scripted [] [] (.openFails ENOENT) []
      [.ready (.batch
        [{ wd := 1, mask := IN_CREATE, cookie := 0, name := bytes "pool.conf" ++ [0, 0, 0, 0, 0, 0, 0] },
         { wd := 1, mask := IN_DELETE_SELF, cookie := 0, name := [] }])] .timedOut)
    { inotifyFd := 3 } 0 1
    [{ wd := 1, mask := IN_CREATE, cookie := 0, name := bytes "pool.conf" ++ [0, 0, 0, 0, 0, 0, 0] },
     { wd := 1, mask := IN_DELETE_SELF, cookie := 0, name := [] }]
    ⟨{ wd := 1, mask := IN_DELETE_SELF, cookie := 0, name := [] }, by simp, rfl, rfl,
      Or.inl (by decide)⟩).2.2.2.2.2 0 3 World.init rfl rfl (Or.inl (by decide)) rfl

/-! ## From WatchingFile to AwaitingFileCreation and back -/

/-- The call of `waitAndProcessFileEvents` whose first batch holds a removal event of
the file watch returns `-EIO` after one `poll` and the removal of the watch. -/
theorem waitAndProcessFileEvents_removed (env : Env) (state : State) (wd : Int)
    (events : List InotifyEvent) (fuel : Nat) (w : World)
    (hev : ∃ e ∈ events, e.wd = wd ∧ e.name = [] ∧ e.mask &&& removalMask ≠ 0)
    (hpoll : env.poll w.pollCalls = .ready (.batch events)) :
    ∃ wP, waitAndProcessFileEvents env state (fuel + 1) wd w =
        some (-5, inotify_rm_watch state.inotifyFd wd wP) ∧
      wP.pollCalls = w.pollCalls + 1 ∧ wP.confReads = w.confReads ∧
      wP.execCalls = w.execCalls ∧ wP.addCalls = w.addCalls ∧ wP.watches = w.watches := by
  obtain ⟨p1, p2, p3, p4, p5⟩ := afterPoll_world env state (env.clock_gettime w.clockCalls)
    { w with clockCalls := w.clockCalls + 1 }
  refine ⟨afterPoll env state (env.clock_gettime w.clockCalls)
    { w with clockCalls := w.clockCalls + 1 }, ?_, p1, p2, p3, p4, p5⟩
  rw [waitAndProcessFileEvents_eq]
  exact waitLoop_ready_neg env state wd PROCESS_MODE_DEFAULT fuel
    (env.clock_gettime w.clockCalls) 0 true { w with clockCalls := w.clockCalls + 1 }
    (.batch events) hpoll (-5) true _
    (processPoolConfEvents_default_removal env state.inotifyFd wd events hev true _)
    (by decide)

/-- A successful reconciliation: the file is read and the command is run. -/
theorem updateLinstorServices_ok (env : Env) (w : World) (data line : List Nat) (status : Nat)
    (hconf : env.poolConf w.confReads = .content data) (hline : fgets 512 data = some line)
    (hexec : env.exec w.execCalls = .waited status) :
    ∃ argv, (argv = Spec.enableVerb ∨ argv = Spec.disableVerb) ∧
      updateLinstorServices env w =
        (0, { w with confReads := w.confReads + 1, execCalls := w.execCalls + 1,
                     trace := w.trace ++ [.execCommand argv] }) := by
  rw [updateLinstorServices_of_line env w data line hconf hline]
  by_cases hm : strncmp line masterStr masterLen = 0 ∧
      (cAt line masterLen = 0 ∨ isspace (cAt line masterLen) ≠ 0)
  · refine ⟨Spec.enableVerb, Or.inl rfl, ?_⟩
    rw [if_pos hm]
    simp [execCommand, hexec, Spec.enableVerb]
  · refine ⟨Spec.disableVerb, Or.inr rfl, ?_⟩
    rw [if_neg hm]
    simp [execCommand, hexec, Spec.disableVerb]

/-- The call of `waitForPoolConfCreation` in which the directory watch is registered,
the first reconciliation succeeds and the file watch is registered: no wait, one
reconciliation, the handle of the file watch is returned. -/
theorem waitForPoolConfCreation_at_once (env : Env) (state : State) (uninit : Int)
    (fuel : Nat) (w : World) (dDir dNew : Nat) (data line : List Nat) (status : Nat)
    (hdir : env.inotify_add_watch w.addCalls = .ok dDir)
    (hconf : env.poolConf w.confReads = .content data) (hline : fgets 512 data = some line)
    (hexec : env.exec w.execCalls = .waited status)
    (hfile : env.inotify_add_watch (w.addCalls + 1) = .ok dNew) :
    ∃ argv w1, (argv = Spec.enableVerb ∨ argv = Spec.disableVerb) ∧
      waitForPoolConfCreation env state (fuel + 2) uninit w = some (0, (dNew : Int), w1) ∧
      w1.trace = w.trace ++
        [.inotify_add_watch state.inotifyFd POOL_CONF_DIR dirWatchMask,
         .execCommand argv,
         .inotify_add_watch state.inotifyFd POOL_CONF_ABS_FILE fileWatchMask,
         .inotify_rm_watch state.inotifyFd (dDir : Int)] ∧
      w1.confReads = w.confReads + 1 ∧ w1.pollCalls = w.pollCalls ∧
      w1.watches =
        ((w.watches.filter (fun x => x.1 ≠ (dDir : Int)) ++ [((dDir : Int), POOL_CONF_DIR)]).filter
            (fun x => x.1 ≠ (dNew : Int)) ++ [((dNew : Int), POOL_CONF_ABS_FILE)]).filter
          (fun x => x.1 ≠ (dDir : Int)) := by
  -- registration of the directory watch
  obtain ⟨wA, hwA, a1, a2, a3, a4, a5, a6⟩ : ∃ wA,
      addInotifyWatch env state.inotifyFd POOL_CONF_DIR dirWatchMask w = ((dDir : Int), wA) ∧
      wA.trace = w.trace ++ [.inotify_add_watch state.inotifyFd POOL_CONF_DIR dirWatchMask] ∧
      wA.confReads = w.confReads ∧ wA.execCalls = w.execCalls ∧
      wA.addCalls = w.addCalls + 1 ∧ wA.pollCalls = w.pollCalls ∧
      wA.watches = w.watches.filter (fun x => x.1 ≠ (dDir : Int)) ++
        [((dDir : Int), POOL_CONF_DIR)] :=
    ⟨_, addInotifyWatch_ok env _ _ _ w dDir hdir, rfl, rfl, rfl, rfl, rfl, rfl⟩
  -- reconciliation
  obtain ⟨argv, hargv, hu⟩ := updateLinstorServices_ok env wA data line status
    (by rw [a2]; exact hconf) hline (by rw [a3]; exact hexec)
  obtain ⟨wB, hwB, b1, b2, b4, b5, b6⟩ : ∃ wB,
      updateLinstorServices env wA = (0, wB) ∧
      wB.trace = wA.trace ++ [.execCommand argv] ∧
      wB.confReads = wA.confReads + 1 ∧
      wB.addCalls = wA.addCalls ∧ wB.pollCalls = wA.pollCalls ∧ wB.watches = wA.watches :=
    ⟨_, hu, rfl, rfl, rfl, rfl, rfl⟩
  have hrec : reconcileLoop env state (dDir : Int) (fuel + 1) wA = some (0, wB) := by
    rw [reconcileLoop, hwB]
    have h1 : ¬ ((0 : Int) = ENOENT.neg ∨ (0 : Int) = EIO.neg) := by decide
    simp only [h1, if_false]
  -- registration of the file watch
  obtain ⟨wC, hwC, c1, c2, c5, c6⟩ : ∃ wC,
      addInotifyWatch env state.inotifyFd POOL_CONF_ABS_FILE fileWatchMask wB =
        ((dNew : Int), wC) ∧
      wC.trace = wB.trace ++
        [.inotify_add_watch state.inotifyFd POOL_CONF_ABS_FILE fileWatchMask] ∧
      wC.confReads = wB.confReads ∧ wC.pollCalls = wB.pollCalls ∧
      wC.watches = wB.watches.filter (fun x => x.1 ≠ (dNew : Int)) ++
        [((dNew : Int), POOL_CONF_ABS_FILE)] :=
    ⟨_, addInotifyWatch_ok env _ _ _ wB dNew (by rw [b4, a4]; exact hfile), rfl, rfl, rfl, rfl⟩
  have hcre : creationLoop env state (dDir : Int) (fuel + 2) uninit wA =
      some (0, (dNew : Int), wC) := by
    rw [creationLoop, hrec]
    simp only [if_true, hwC]
    have h1 : ¬ ((dNew : Int) < 0) := by omega
    have h2 : ¬ ((0 : Int) = ENOENT.neg) := by decide
    simp only [h1, h2, if_false]
  refine ⟨argv, inotify_rm_watch state.inotifyFd (dDir : Int) wC, hargv, ?_, ?_, ?_, ?_, ?_⟩
  · unfold waitForPoolConfCreation
    simp only [hwA]
    have hd : ¬ ((dDir : Int) < 0) := by omega
    rw [if_neg hd, hcre]
  · show wC.trace ++ _ = _
    rw [c1, b1, a1]
    simp
  · show wC.confReads = _
    rw [c2, b2, a2]
  · show wC.pollCalls = _
    rw [c5, b5, a5]
  · show wC.watches.filter _ = _
    rw [c6, b6, a6]

/-- C9: starting in WatchingFile, when a batch reports delete-self on the file watch and
the file has already been recreated (the next reconciliation succeeds and the file watch
can be registered), `main` removes the file watch, registers the directory watch
(create, moved-to, move-self, delete-self), reconciles exactly once without any further
`poll`, registers the file watch (modify, move-self, delete-self), removes the directory
watch and is in WatchingFile again with the new handle. -/
theorem file_deleted_and_recreated_back_to_watchingFile (env : Env) (state : State)
    (uninit : Int) (wd : Int) (events : List InotifyEvent) (fuel : Nat) (w : World)
    (dDir dNew : Nat) (data line : List Nat) (status : Nat)
    (hev : ∃ e ∈ events, e.wd = wd ∧ e.name = [] ∧ e.mask &&& IN_DELETE_SELF ≠ 0)
    (hpoll : env.poll w.pollCalls = .ready (.batch events))
    (hdir : env.inotify_add_watch w.addCalls = .ok dDir)
    (hconf : env.poolConf w.confReads = .content data) (hline : fgets 512 data = some line)
    (hexec : env.exec w.execCalls = .waited status)
    (hfile : env.inotify_add_watch (w.addCalls + 1) = .ok dNew) :
    ∃ wP argv w1,
      waitAndProcessFileEvents env state (fuel + 3) wd w =
        some (-5, inotify_rm_watch state.inotifyFd wd wP) ∧
      wP.pollCalls = w.pollCalls + 1 ∧ wP.confReads = w.confReads ∧
      (argv = Spec.enableVerb ∨ argv = Spec.disableVerb) ∧
      watchingFile env state uninit (fuel + 3) wd w =
        watchingFile env state uninit (fuel + 2) (dNew : Int) w1 ∧
      actionsSince wP w1 =
        [.inotify_rm_watch state.inotifyFd wd,
         .inotify_add_watch state.inotifyFd POOL_CONF_DIR dirWatchMask,
         .execCommand argv,
         .inotify_add_watch state.inotifyFd POOL_CONF_ABS_FILE fileWatchMask,
         .inotify_rm_watch state.inotifyFd (dDir : Int)] ∧
      w1.confReads = w.confReads + 1 ∧ w1.pollCalls = w.pollCalls + 1 ∧
      dirWatchMask = IN_CREATE ||| IN_MOVED_TO ||| IN_MOVE_SELF ||| IN_DELETE_SELF ∧
      fileWatchMask = IN_MODIFY ||| IN_MOVE_SELF ||| IN_DELETE_SELF ∧
      (∀ x ∈ w1.watches, x.1 ≠ (dDir : Int)) ∧
      (dDir ≠ dNew → ((dNew : Int), POOL_CONF_ABS_FILE) ∈ w1.watches) := by
  have hev' : ∃ e ∈ events, e.wd = wd ∧ e.name = [] ∧ e.mask &&& removalMask ≠ 0 := by
    obtain ⟨e, he, h1, h2, h3⟩ := hev
    exact ⟨e, he, h1, h2, (carriesRemoval_iff _).2 (Or.inl h3)⟩
  obtain ⟨wP, hwait, p1, p2, p3, p4, -⟩ :=
    waitAndProcessFileEvents_removed env state wd events (fuel + 2) w hev' hpoll
  obtain ⟨argv, w1, hargv, hcre, t1, q1, q2, q3⟩ :=
    waitForPoolConfCreation_at_once env state uninit fuel
      (inotify_rm_watch state.inotifyFd wd wP) dDir dNew data line status
      (by show env.inotify_add_watch wP.addCalls = _; rw [p4]; exact hdir)
      (by show env.poolConf wP.confReads = _; rw [p2]; exact hconf) hline
      (by show env.exec wP.execCalls = _; rw [p3]; exact hexec)
      (by show env.inotify_add_watch (wP.addCalls + 1) = _; rw [p4]; exact hfile)
  refine ⟨wP, argv, w1, hwait, p1, p2, hargv, ?_, ?_, ?_, ?_, by decide, by decide, ?_, ?_⟩
  · have hstep : watchingFile env state uninit (fuel + 3) wd w =
        awaitingFileCreation env state uninit (fuel + 2)
          (inotify_rm_watch state.inotifyFd wd wP) := by
      unfold watchingFile
      rw [hwait]
      simp only
      rw [mainLoop_succ, if_pos (by decide)]
    rw [hstep]
    unfold awaitingFileCreation
    rw [hcre]
    simp
  · apply actionsSince_append
    rw [t1]
    simp [inotify_rm_watch]
  · rw [q1]
    show wP.confReads + 1 = _
    rw [p2]
  · rw [q2]
    show wP.pollCalls = _
    rw [p1]
  · intro x hx
    rw [q3] at hx
    have := (List.mem_filter.1 hx).2
    simpa using this
  · intro hne
    rw [q3]
    apply List.mem_filter.2
    refine ⟨List.mem_append_right _ (List.mem_singleton.2 rfl), ?_⟩
    have : (dNew : Int) ≠ (dDir : Int) := by omega
    simpa using this

theorem file_deleted_and_recreated_back_to_watchingFile_witness :
    ∃ wP argv w1,
      waitAndProcessFileEvents
        (Env.scripted [] [] (.content (bytes "master\n")) []
          [.ready (.batch [{ wd := 2, mask := IN_DELETE_SELF, cookie := 0, name := [] }])]
          .timedOut)
        { inotifyFd := 3 } (0 + 3) 2 World.init =
        some (-5, inotify_rm_watch 3 2 wP) ∧
      wP.pollCalls = World.init.pollCalls + 1 ∧ wP.confReads = World.init.confReads ∧
      (argv = Spec.enableVerb ∨ argv = Spec.disableVerb) ∧
      watchingFile
        (Env.scripted [] [] (.content (bytes "master\n")) []
          [.ready (.batch [{ wd := 2, mask := IN_DELETE_SELF, cookie := 0, name := [] }])]
          .timedOut)
        { inotifyFd := 3 } 0 (0 + 3) 2 World.init =
        watchingFile
          (Env.scripted [] [] (.content (bytes "master\n")) []
            [.ready (.batch [{ wd := 2, mask := IN_DELETE_SELF, cookie := 0, name := [] }])]
            .timedOut)
          { inotifyFd := 3 } 0 (0 + 2) ((2 : Nat) : Int) w1 ∧
      actionsSince wP w1 =
        [.inotify_rm_watch 3 2,
         .inotify_add_watch 3 POOL_CONF_DIR dirWatchMask,
         .execCommand argv,
         .inotify_add_watch 3 POOL_CONF_ABS_FILE fileWatchMask,
         .inotify_rm_watch 3 ((1 : Nat) : Int)] ∧
      w1.confReads = World.init.confReads + 1 ∧ w1.pollCalls = World.init.pollCalls + 1 ∧
      dirWatchMask = IN_CREATE ||| IN_MOVED_TO ||| IN_MOVE_SELF ||| IN_DELETE_SELF ∧
      fileWatchMask = IN_MODIFY ||| IN_MOVE_SELF ||| IN_DELETE_SELF ∧
      (∀ x ∈ w1.watches, x.1 ≠ ((1 : Nat) : Int)) ∧
      (1 ≠ 2 → (((2 : Nat) : Int), POOL_CONF_ABS_FILE) ∈ w1.watches) :=
  file_deleted_and_recreated_back_to_watchingFile
    (Env.scripted [] [] (.content (bytes "master\n")) []
      [.ready (.batch [{ wd := 2, mask := IN_DELETE_SELF, cookie := 0, name := [] }])]
      .timedOut)
    { inotifyFd := 3 } 0 2 [{ wd := 2, mask := IN_DELETE_SELF, cookie := 0, name := [] }]
    0 World.init 1 2 (bytes "master\n") (bytes "master\n") 0
    ⟨{ wd := 2, mask := IN_DELETE_SELF, cookie := 0, name := [] }, by simp, rfl, rfl,
      by decide⟩
    rfl rfl rfl (by decide) rfl rfl

/-! ## Watches across the modes -/

/-- C4 (violated by the code): run on `truncatedEnv`.  At startup the file watch 2 is
registered and the directory watch 1 removed (WatchingFile).  After the modify event
the reconciliation fails with `-EIO` and `waitAndProcessFileEvents` returns without
removing the file watch; `main` re-enters `waitForPoolConfCreation`, which registers
the directory watch 3: during AwaitingFileCreation the file watch 2 is still
registered, and it is never removed up to the exit of `main`. -/
theorem file_watch_kept_after_failed_reconciliation :
    (waitForPoolConfCreation truncatedEnv { inotifyFd := 3 } 2 0 World.init).map
        (fun r => (r.1, r.2.1, r.2.2.watches)) =
      some (0, 2, [(2, POOL_CONF_ABS_FILE)]) ∧
    ((waitForPoolConfCreation truncatedEnv { inotifyFd := 3 } 2 0 World.init).bind
        (fun r => waitAndProcessFileEvents truncatedEnv { inotifyFd := 3 } 1 r.2.1 r.2.2)).map
        (fun r => (r.1, r.2.watches)) =
      some (-5, [(2, POOL_CONF_ABS_FILE)]) ∧
    ((waitForPoolConfCreation truncatedEnv { inotifyFd := 3 } 2 0 World.init).bind
        (fun r => waitAndProcessFileEvents truncatedEnv { inotifyFd := 3 } 1 r.2.1 r.2.2)).map
        (fun r => ((addInotifyWatch truncatedEnv 3 POOL_CONF_DIR dirWatchMask r.2).1,
                   (addInotifyWatch truncatedEnv 3 POOL_CONF_DIR dirWatchMask r.2).2.watches)) =
      some (3, [(2, POOL_CONF_ABS_FILE), (3, POOL_CONF_DIR)]) ∧
    (main truncatedEnv 0 5 World.init).map (fun r => (r.1, r.2.watches, r.2.trace)) =
      some (5, [(2, POOL_CONF_ABS_FILE)],
        [.gethostname,
         .inotify_add_watch 3 POOL_CONF_DIR dirWatchMask,
         .execCommand Spec.enableVerb,
         .inotify_add_watch 3 POOL_CONF_ABS_FILE fileWatchMask,
         .inotify_rm_watch 3 1,
         .poll 3 2000,
         .inotify_add_watch 3 POOL_CONF_DIR dirWatchMask,
         .poll 3 2000,
         .inotify_rm_watch 3 3,
         .close 3]) := by
  refine ⟨by decide, by decide, by decide, by decide⟩

/-! ## Failures to open or read the configuration file -/

theorem isMasterHost_unreadable (conf : PoolConf) (h : Spec.unreadable conf) :
    isMasterHost conf = (0, Spec.failureCode conf) ∧ Spec.failureCode conf < 0 := by
  cases conf with
  | openFails e =>
    have := e.pos
    have hneg : (-(e.code : Int)) < 0 := by omega
    simp [isMasterHost, readPoolConf, Spec.failureCode, Errno.neg, hneg]
  | readFails =>
    exact ⟨by decide, by decide⟩
  | content data =>
    have h' : fgets 512 data = none := h
    have hneg : EIO.neg < 0 := by decide
    have h5 : EIO.neg = -5 := by decide
    simp [isMasterHost, readPoolConf, Spec.failureCode, h', hneg]
    exact h5

theorem updateLinstorServices_unreadable (env : Env) (w : World)
    (h : Spec.unreadable (env.poolConf w.confReads)) :
    updateLinstorServices env w =
      (Spec.failureCode (env.poolConf w.confReads), { w with confReads := w.confReads + 1 }) := by
  obtain ⟨h1, h2⟩ := isMasterHost_unreadable _ h
  exact updateLinstorServices_of_error env w _ (by rw [h1]) (by omega)

/-- The call of `waitAndProcessFileEvents` whose first batch holds a modify event of the
file watch and no removal event, the reconciliation failing to open or read the file:
the failure code is returned after one `poll`, the watches are left as they are. -/
theorem waitAndProcessFileEvents_unreadable (env : Env) (state : State) (wd : Int)
    (events : List InotifyEvent) (fuel : Nat) (w : World)
    (hmod : ∃ e ∈ events, e.wd = wd ∧ e.name = [] ∧ e.mask &&& IN_MODIFY ≠ 0)
    (hno : ∀ e ∈ events, e.wd = wd → ¬ Spec.carriesRemoval e.mask)
    (hpoll : env.poll w.pollCalls = .ready (.batch events))
    (hu : Spec.unreadable (env.poolConf w.confReads)) :
    ∃ w1, waitAndProcessFileEvents env state (fuel + 1) wd w =
        some (Spec.failureCode (env.poolConf w.confReads), w1) ∧
      w1.watches = w.watches ∧ w1.addCalls = w.addCalls ∧ w1.confReads = w.confReads + 1 := by
  obtain ⟨wP, hwP, p2, p4, p5⟩ : ∃ wP,
      wP = afterPoll env state (env.clock_gettime w.clockCalls)
        { w with clockCalls := w.clockCalls + 1 } ∧
      wP.confReads = w.confReads ∧ wP.addCalls = w.addCalls ∧ wP.watches = w.watches := by
    obtain ⟨-, p2, -, p4, p5⟩ := afterPoll_world env state (env.clock_gettime w.clockCalls)
      { w with clockCalls := w.clockCalls + 1 }
    exact ⟨_, rfl, p2, p4, p5⟩
  have hc : ∃ e ∈ events, counted wd PROCESS_MODE_DEFAULT e ∧ e.mask ≠ 0 := by
    obtain ⟨e, he, h1, h2, h3⟩ := hmod
    refine ⟨e, he, ⟨h1, Or.inr ⟨by simp [InotifyEvent.len, h2], rfl⟩⟩, ?_⟩
    intro h0
    rw [h0, zero_and_eq] at h3
    exact h3 rfl
  have hno' : ∀ e ∈ events, e.wd = wd → e.mask &&& removalMask = 0 := by
    intro e he h1
    by_contra h2
    exact hno e he h1 ((carriesRemoval_iff _).1 h2)
  have hu' : Spec.unreadable (env.poolConf wP.confReads) := by
    rw [p2]; exact hu
  have hfc : Spec.failureCode (env.poolConf wP.confReads) =
      Spec.failureCode (env.poolConf w.confReads) := by rw [p2]
  have hproc := processPoolConfEvents_default_update env state.inotifyFd wd events hc hno' true wP
  rw [updateLinstorServices_unreadable env wP hu', hfc] at hproc
  refine ⟨{ wP with confReads := wP.confReads + 1 }, ?_, p5, p4, ?_⟩
  · rw [waitAndProcessFileEvents_eq]
    apply waitLoop_ready_neg env state wd PROCESS_MODE_DEFAULT fuel
      (env.clock_gettime w.clockCalls) 0 true { w with clockCalls := w.clockCalls + 1 }
      (.batch events) hpoll (Spec.failureCode (env.poolConf w.confReads)) true
      { wP with confReads := wP.confReads + 1 }
    · rw [← hwP]
      exact hproc
    · exact (isMasterHost_unreadable _ hu).2
  · show wP.confReads + 1 = _
    rw [p2]

/-- C10 as stated fails: on `deniedEnv` the first reconciliation fails to open the file
with EACCES; the code `-13` is neither `-ENOENT` nor `-EIO` and `main` returns, with
exit code 13.  On `deniedLaterEnv` the same happens in WatchingFile mode, after a modify
event. -/
theorem open_failure_other_than_ENOENT_ends_main :
    readPoolConf (.openFails EACCES) 512 = (-13, []) ∧
    (updateLinstorServices deniedEnv World.init).1 = -13 ∧
    (-13 : Int) ≠ ENOENT.neg ∧ (-13 : Int) ≠ EIO.neg ∧
    (main deniedEnv 0 3 World.init).map (fun r => (r.1, r.2.confReads, r.2.pollCalls)) =
      some (13, 1, 0) ∧
    (main deniedLaterEnv 0 4 World.init).map (fun r => (r.1, r.2.confReads, r.2.pollCalls)) =
      some (13, 2, 1) := by
  refine ⟨by decide, by decide, by decide, by decide, by decide, by decide⟩

/-- C10, amended: a failure to open the configuration file is reported as the negated
`errno` and a failure to read its first line as `-EIO`, without any command.  When the
code is `-ENOENT` or `-EIO` the failure does not leave the event loop: in WatchingFile
`main` goes on by entering AwaitingFileCreation, in AwaitingFileCreation the inner loop
of `waitForPoolConfCreation` goes on by waiting for directory events.  An open failure
with another `errno` makes `main` return with that `errno`, in either mode, as do the
failure to create the inotify instance and the failure to register the directory
watch. -/
theorem read_failure_nonfatal_only_for_ENOENT_and_EIO_codes (env : Env) (state : State) (uninit : Int) :
    (∀ (w : World), Spec.unreadable (env.poolConf w.confReads) →
      updateLinstorServices env w =
        (Spec.failureCode (env.poolConf w.confReads),
         { w with confReads := w.confReads + 1 })) ∧
    (∀ (fuel : Nat) (wd : Int) (events : List InotifyEvent) (w : World),
      (∃ e ∈ events, e.wd = wd ∧ e.name = [] ∧ e.mask &&& IN_MODIFY ≠ 0) →
      (∀ e ∈ events, e.wd = wd → ¬ Spec.carriesRemoval e.mask) →
      env.poll w.pollCalls = .ready (.batch events) →
      Spec.unreadable (env.poolConf w.confReads) →
      (Spec.failureCode (env.poolConf w.confReads) = ENOENT.neg ∨
        Spec.failureCode (env.poolConf w.confReads) = EIO.neg) →
      ∃ w1, waitAndProcessFileEvents env state (fuel + 1) wd w =
          some (Spec.failureCode (env.poolConf w.confReads), w1) ∧
        watchingFile env state uninit (fuel + 1) wd w =
          awaitingFileCreation env state uninit fuel w1) ∧
    (∀ (fuel : Nat) (wdDir : Int) (w : World),
      Spec.unreadable (env.poolConf w.confReads) →
      (Spec.failureCode (env.poolConf w.confReads) = ENOENT.neg ∨
        Spec.failureCode (env.poolConf w.confReads) = EIO.neg) →
      reconcileLoop env state wdDir (fuel + 1) w =
        match waitAndProcessDirEvents env state fuel wdDir
            { w with confReads := w.confReads + 1 } with
        | none => none
        | some (ret, w1) =>
          if ret = 0 then reconcileLoop env state wdDir fuel w1 else some (ret, w1)) ∧
    (∀ (fuel : Nat) (wd : Int) (events : List InotifyEvent) (w : World) (e : Errno),
      (∃ x ∈ events, x.wd = wd ∧ x.name = [] ∧ x.mask &&& IN_MODIFY ≠ 0) →
      (∀ x ∈ events, x.wd = wd → ¬ Spec.carriesRemoval x.mask) →
      env.poll w.pollCalls = .ready (.batch events) →
      env.poolConf w.confReads = .openFails e → e.code ≠ 2 → e.code ≠ 5 →
      ∃ w1, watchingFile env state uninit (fuel + 1) wd w = some (-(e.code : Int), w1)) ∧
    (∀ (fuel : Nat) (w : World) (d : Nat) (e : Errno),
      env.inotify_add_watch w.addCalls = .ok d →
      env.poolConf w.confReads = .openFails e → e.code ≠ 2 → e.code ≠ 5 →
      ∃ w1, awaitingFileCreation env state uninit (fuel + 2) w = some (-(e.code : Int), w1)) ∧
    (∀ (fuel : Nat) (w : World) (e : Errno), env.inotify_init1 = .fails e →
      main env uninit fuel w = some ((e.code : Int), w)) ∧
    (∀ (fuel : Nat) (w : World) (e : Errno), env.inotify_add_watch w.addCalls = .fails e →
      ∃ w1, awaitingFileCreation env state uninit fuel w = some (-(e.code : Int), w1)) := by
  refine ⟨?_, ?_, ?_, ?_, ?_, ?_, ?_⟩
  · intro w hu
    exact updateLinstorServices_unreadable env w hu
  · intro fuel wd events w hmod hno hpoll hu hcode
    obtain ⟨w1, hw1, -⟩ :=
      waitAndProcessFileEvents_unreadable env state wd events fuel w hmod hno hpoll hu
    refine ⟨w1, hw1, ?_⟩
    unfold watchingFile
    rw [hw1]
    simp only
    rw [mainLoop_succ, if_pos (Or.inr hcode)]
  · intro fuel wdDir w hu hcode
    have h := reconcileLoop_wait env state wdDir fuel w
      (by rw [updateLinstorServices_unreadable env w hu]; exact hcode)
    rw [updateLinstorServices_unreadable env w hu] at h
    exact h
  · intro fuel wd events w e hmod hno hpoll hconf h2 h5
    have hu : Spec.unreadable (env.poolConf w.confReads) := by rw [hconf]; trivial
    obtain ⟨w1, hw1, -⟩ :=
      waitAndProcessFileEvents_unreadable env state wd events fuel w hmod hno hpoll hu
    have hcode : Spec.failureCode (env.poolConf w.confReads) = -(e.code : Int) := by
      rw [hconf]; rfl
    rw [hcode] at hw1
    refine ⟨w1, ?_⟩
    unfold watchingFile
    rw [hw1]
    simp only
    have hne : ¬ (-(e.code : Int) = 0 ∨ -(e.code : Int) = ENOENT.neg ∨
        -(e.code : Int) = EIO.neg) := by
      have := e.pos
      simp only [ENOENT, EIO, Errno.neg]
      omega
    rw [mainLoop_succ, if_neg hne]
  · intro fuel w d e hadd hconf h2 h5
    have hne2 : -(e.code : Int) ≠ ENOENT.neg := by
      simp only [ENOENT, Errno.neg]; omega
    have hne5 : -(e.code : Int) ≠ EIO.neg := by
      simp only [Errno.neg, EIO]; omega
    have hne0 : -(e.code : Int) ≠ 0 := by
      have := e.pos; omega
    have hneg : -(e.code : Int) < 0 := by
      have := e.pos; omega
    obtain ⟨wA, hwA, a2⟩ : ∃ wA,
        addInotifyWatch env state.inotifyFd POOL_CONF_DIR dirWatchMask w = ((d : Int), wA) ∧
        wA.confReads = w.confReads :=
      ⟨_, addInotifyWatch_ok env _ _ _ w d hadd, rfl⟩
    have hu : Spec.unreadable (env.poolConf wA.confReads) := by rw [a2, hconf]; trivial
    have hcode : Spec.failureCode (env.poolConf wA.confReads) = -(e.code : Int) := by
      rw [a2, hconf]; rfl
    have hrec : reconcileLoop env state (d : Int) (fuel + 1) wA =
        some (-(e.code : Int), { wA with confReads := wA.confReads + 1 }) := by
      rw [reconcileLoop, updateLinstorServices_unreadable env wA hu, hcode]
      simp only [hne2, hne5, or_self, if_false]
    have hcre := creationLoop_propagates env state (d : Int) (fuel + 1) uninit wA _ _
      hne0 hne2 hrec
    refine ⟨inotify_rm_watch state.inotifyFd (d : Int)
      { wA with confReads := wA.confReads + 1 }, ?_⟩
    unfold awaitingFileCreation waitForPoolConfCreation
    simp only [hwA]
    have hd : ¬ ((d : Int) < 0) := by omega
    rw [if_neg hd, hcre]
    simp only [hneg, if_true]
  · intro fuel w e hinit
    unfold main createInotifyInstance
    simp only [hinit]
    rw [if_pos (Errno.neg_neg e)]
    simp [Errno.neg]
  · intro fuel w e hadd
    refine ⟨(addInotifyWatch env state.inotifyFd POOL_CONF_DIR dirWatchMask w).2, ?_⟩
    unfold awaitingFileCreation waitForPoolConfCreation
    simp only [addInotifyWatch_fails env _ _ _ w e hadd]
    rw [if_pos (Errno.neg_neg e)]
    simp only [Errno.neg_neg e, if_true]
    rfl

theorem read_failure_nonfatal_only_for_ENOENT_and_EIO_codes_witness :
    (∃ w1, awaitingFileCreation deniedEnv { inotifyFd := 3 } 0 (0 + 2) World.init =
        some (-((EACCES).code : Int), w1)) ∧
    reconcileLoop truncatedEnv { inotifyFd := 3 } 3 (0 + 1) { World.init with confReads := 1 } =
      (match waitAndProcessDirEvents truncatedEnv { inotifyFd := 3 } 0 3
          { World.init with confReads := 1 + 1 } with
      | none => none
      | some (ret, w1) =>
        if ret = 0 then reconcileLoop truncatedEnv { inotifyFd := 3 } 3 0 w1 else some (ret, w1)) :=
  ⟨(read_failure_nonfatal_only_for_ENOENT_and_EIO_codes deniedEnv { inotifyFd := 3 } 0).2.2.2.2.1
      0 World.init 1 EACCES rfl rfl (by decide) (by decide),
   (read_failure_nonfatal_only_for_ENOENT_and_EIO_codes truncatedEnv { inotifyFd := 3 } 0).2.2.1
      0 3 { World.init with confReads := 1 } (by show fgets 512 [] = none; decide)
      (Or.inr (by decide))⟩

/-! ## Failures of the wait -/

/-- With enough fuel the first loop of `normalizeTime` stops by its condition. -/
theorem normalizeUp_eq (fuel : Nat) (spec : Timespec)
    (h : (spec.tv_nsec / 1000000000).toNat ≤ fuel) :
    normalizeUp fuel spec =
      if spec.tv_nsec ≥ 1000000000 then
        { tv_sec := spec.tv_sec + spec.tv_nsec / 1000000000,
          tv_nsec := spec.tv_nsec % 1000000000 }
      else spec := by
  induction fuel generalizing spec with
  | zero =>
    have h1 : ¬ spec.tv_nsec ≥ 1000000000 := by omega
    simp [normalizeUp, h1]
  | succ n ih =>
    by_cases h1 : spec.tv_nsec ≥ 1000000000
    · rw [normalizeUp, if_pos h1, if_pos h1, ih _ (by simp only; omega)]
      simp only
      by_cases h2 : spec.tv_nsec - 1000000000 ≥ 1000000000
      · rw [if_pos h2]
        congr 1 <;> omega
      · rw [if_neg h2]
        congr 1 <;> omega
    · rw [normalizeUp, if_neg h1, if_neg h1]

/-- With enough fuel the second loop of `normalizeTime` stops by its condition. -/
theorem normalizeDown_eq (fuel : Nat) (spec : Timespec)
    (h : ((999999999 - spec.tv_nsec) / 1000000000).toNat ≤ fuel) :
    normalizeDown fuel spec =
      if spec.tv_nsec < 0 then
        { tv_sec := spec.tv_sec + spec.tv_nsec / 1000000000,
          tv_nsec := spec.tv_nsec % 1000000000 }
      else spec := by
  induction fuel generalizing spec with
  | zero =>
    have h1 : ¬ spec.tv_nsec < 0 := by omega
    simp [normalizeDown, h1]
  | succ n ih =>
    by_cases h1 : spec.tv_nsec < 0
    · rw [normalizeDown, if_pos h1, if_pos h1, ih _ (by simp only; omega)]
      simp only
      by_cases h2 : spec.tv_nsec + 1000000000 < 0
      · rw [if_pos h2]
        congr 1 <;> omega
      · rw [if_neg h2]
        congr 1 <;> omega
    · rw [normalizeDown, if_neg h1, if_neg h1]

/-- The result of `normalizeTime` in closed form. -/
theorem normalizeTime_eq (spec : Timespec) :
    normalizeTime spec =
      { tv_sec := spec.tv_sec + spec.tv_nsec / 1000000000,
        tv_nsec := spec.tv_nsec % 1000000000 } := by
  unfold normalizeTime
  simp only
  rw [normalizeUp_eq _ spec (Nat.le_refl _)]
  by_cases h1 : spec.tv_nsec ≥ 1000000000
  · rw [if_pos h1, normalizeDown_eq _ _ (Nat.le_refl _)]
    simp only
    have h2 : ¬ spec.tv_nsec % 1000000000 < 0 := by omega
    rw [if_neg h2]
  · rw [if_neg h1, normalizeDown_eq _ _ (Nat.le_refl _)]
    by_cases h2 : spec.tv_nsec < 0
    · rw [if_pos h2]
    · rw [if_neg h2]
      cases spec with
      | mk s n =>
        simp only at h1 h2 ⊢
        congr 1 <;> omega

theorem normalizeTime_normalized (spec : Timespec) :
    Spec.normalized (normalizeTime spec) ∧
      Spec.nanos (normalizeTime spec) = Spec.nanos spec := by
  rw [normalizeTime_eq]
  unfold Spec.normalized Spec.nanos
  simp only
  refine ⟨⟨?_, ?_⟩, ?_⟩ <;> omega

/-- C19: for all normalized timespecs `a` and `b`, `getTimeDiff a b` is normalized and its
total value in nanoseconds is exactly that of `a` minus that of `b` (the nanosecond
field handed to `normalizeTime` lies strictly between `-2 * 10^9` and 0); `normalizeTime`
brings `tv_nsec` into `[0, 10^9)` and preserves the total on every input, and each of
its loops stops by its own condition: from the iteration bound on, more fuel does not
change the result. -/
theorem getTimeDiff_normalized_and_exact (a b : Timespec)
    (ha : Spec.normalized a) (hb : Spec.normalized b) :
    Spec.normalized (getTimeDiff a b) ∧
    Spec.nanos (getTimeDiff a b) = Spec.nanos a - Spec.nanos b ∧
    (-2000000000 < a.tv_nsec - (b.tv_nsec + 1000000000) ∧
      a.tv_nsec - (b.tv_nsec + 1000000000) < 0 ∧
      ((getTimeDiff a b).tv_sec = a.tv_sec - b.tv_sec ∨
        (getTimeDiff a b).tv_sec = a.tv_sec - b.tv_sec - 1)) ∧
    (∀ spec : Timespec, Spec.normalized (normalizeTime spec) ∧
      Spec.nanos (normalizeTime spec) = Spec.nanos spec) ∧
    (∀ (spec : Timespec) (fuel : Nat), (spec.tv_nsec / 1000000000).toNat ≤ fuel →
      normalizeUp fuel spec = normalizeUp (spec.tv_nsec / 1000000000).toNat spec ∧
      (normalizeUp fuel spec).tv_nsec < 1000000000) ∧
    (∀ (spec : Timespec) (fuel : Nat),
      ((999999999 - spec.tv_nsec) / 1000000000).toNat ≤ fuel →
      normalizeDown fuel spec =
        normalizeDown ((999999999 - spec.tv_nsec) / 1000000000).toNat spec ∧
      0 ≤ (normalizeDown fuel spec).tv_nsec) := by
  refine ⟨?_, ?_, ?_, normalizeTime_normalized, ?_, ?_⟩
  · exact (normalizeTime_normalized _).1
  · unfold getTimeDiff
    rw [(normalizeTime_normalized _).2]
    unfold Spec.nanos
    simp only
    omega
  · unfold Spec.normalized at ha hb
    unfold getTimeDiff
    rw [normalizeTime_eq]
    simp only
    refine ⟨?_, ?_, ?_⟩ <;> omega
  · intro spec fuel h
    rw [normalizeUp_eq fuel spec h, normalizeUp_eq _ spec (Nat.le_refl _)]
    refine ⟨rfl, ?_⟩
    split
    · simp only
      omega
    · omega
  · intro spec fuel h
    rw [normalizeDown_eq fuel spec h, normalizeDown_eq _ spec (Nat.le_refl _)]
    refine ⟨rfl, ?_⟩
    split
    · simp only
      omega
    · omega

theorem getTimeDiff_normalized_and_exact_witness :
    Spec.normalized (getTimeDiff { tv_sec := 5, tv_nsec := 1 } { tv_sec := 3, tv_nsec := 2 }) ∧
    Spec.nanos (getTimeDiff { tv_sec := 5, tv_nsec := 1 } { tv_sec := 3, tv_nsec := 2 }) =
      Spec.nanos { tv_sec := 5, tv_nsec := 1 } - Spec.nanos { tv_sec := 3, tv_nsec := 2 } :=
  ⟨(getTimeDiff_normalized_and_exact { tv_sec := 5, tv_nsec := 1 } { tv_sec := 3, tv_nsec := 2 }
      (by decide) (by decide)).1,
   (getTimeDiff_normalized_and_exact { tv_sec := 5, tv_nsec := 1 } { tv_sec := 3, tv_nsec := 2 }
      (by decide) (by decide)).2.1⟩

/-- On a normalized timespec `convertToMilliseconds` rounds the nanoseconds up to the
next microsecond (one more when they are a whole number of microseconds) and then down
to milliseconds. -/
theorem convertToMilliseconds_eq (spec : Timespec) (h : Spec.normalized spec) :
    convertToMilliseconds spec = (Spec.nanos spec / 1000 + 1) / 1000 := by
  unfold Spec.normalized at h
  unfold convertToMilliseconds Spec.nanos
  simp only
  rw [normalizeTime_eq]
  simp only
  rw [Int.tmod_eq_emod h.1 (by decide), Int.tdiv_eq_ediv (by omega) (by decide)]
  omega

theorem elapsed_eq (cur prev : Timespec) :
    convertToMilliseconds (getTimeDiff cur prev) =
      ((Spec.nanos cur - Spec.nanos prev) / 1000 + 1) / 1000 := by
  have hn := normalizeTime_normalized
    { tv_sec := cur.tv_sec - (prev.tv_sec - 1),
      tv_nsec := cur.tv_nsec - (prev.tv_nsec + 1000000000) }
  have hd : getTimeDiff cur prev = normalizeTime
      { tv_sec := cur.tv_sec - (prev.tv_sec - 1),
        tv_nsec := cur.tv_nsec - (prev.tv_nsec + 1000000000) } := rfl
  rw [convertToMilliseconds_eq _ (by rw [hd]; exact hn.1), hd, hn.2]
  unfold Spec.nanos
  simp only
  have e : (cur.tv_sec - (prev.tv_sec - 1)) * 1000000000 +
      (cur.tv_nsec - (prev.tv_nsec + 1000000000)) =
      cur.tv_sec * 1000000000 + cur.tv_nsec - (prev.tv_sec * 1000000000 + prev.tv_nsec) := by
    omega
  rw [e]

theorem toInt32_of_small (x : Int) (h1 : -2147483648 ≤ x) (h2 : x < 2147483648) :
    toInt32 x = x := by
  unfold toInt32
  omega

theorem pollBudget_timeout (env : Env) (state : State) (prev : Timespec) (w : World) :
    (pollBudget env state prev w).1 =
      if convertToMilliseconds (getTimeDiff (env.clock_gettime w.clockCalls) prev) ≥
          POLL_TIMEOUT then POLL_TIMEOUT
      else toInt32
        (POLL_TIMEOUT - convertToMilliseconds (getTimeDiff (env.clock_gettime w.clockCalls) prev)) := by
  unfold pollBudget
  simp only [getCurrentTime]
  split <;> rfl

/-- C12: for every pair of clock readings (normalized or not) with `currentTime` not
earlier than `previousTime`, the timeout that the loop of `waitAndProcessEvents` passes to `poll` is
between 1 and `POLL_TIMEOUT` = 2000 milliseconds inclusive. -/
theorem poll_timeout_between_1_and_2000 (env : Env) (state : State) (prev : Timespec)
    (w : World)
    (hmono : Spec.nanos prev ≤ Spec.nanos (env.clock_gettime w.clockCalls)) :
    0 ≤ convertToMilliseconds (getTimeDiff (env.clock_gettime w.clockCalls) prev) ∧
    1 ≤ (pollBudget env state prev w).1 ∧
    (pollBudget env state prev w).1 ≤ POLL_TIMEOUT ∧ POLL_TIMEOUT = 2000 ∧
    actionsSince (pollBudget env state prev w).2.2 (afterPoll env state prev w) =
      [.poll state.inotifyFd (pollBudget env state prev w).1] := by
  have he := elapsed_eq (env.clock_gettime w.clockCalls) prev
  have h0 : 0 ≤ convertToMilliseconds (getTimeDiff (env.clock_gettime w.clockCalls) prev) := by
    rw [he]
    omega
  refine ⟨h0, ?_, ?_, rfl, ?_⟩
  · rw [pollBudget_timeout]
    simp only [POLL_TIMEOUT]
    split
    · decide
    · rw [toInt32_of_small _ (by omega) (by omega)]
      omega
  · rw [pollBudget_timeout]
    simp only [POLL_TIMEOUT]
    split
    · decide
    · rw [toInt32_of_small _ (by omega) (by omega)]
      omega
  · apply actionsSince_append
    rfl

theorem poll_timeout_between_1_and_2000_witness :
    1 ≤ (pollBudget
          (Env.scripted [{ tv_sec := 10, tv_nsec := 700000000 }] [] .readFails [] [] .timedOut)
          { inotifyFd := 3 } { tv_sec := 10, tv_nsec := 200000000 } World.init).1 ∧
    (pollBudget
          (Env.scripted [{ tv_sec := 10, tv_nsec := 700000000 }] [] .readFails [] [] .timedOut)
          { inotifyFd := 3 } { tv_sec := 10, tv_nsec := 200000000 } World.init).1 ≤ POLL_TIMEOUT :=
  ⟨(poll_timeout_between_1_and_2000
      (Env.scripted [{ tv_sec := 10, tv_nsec := 700000000 }] [] .readFails [] [] .timedOut)
      { inotifyFd := 3 } { tv_sec := 10, tv_nsec := 200000000 } World.init
      (by decide)).2.1,
   (poll_timeout_between_1_and_2000
      (Env.scripted [{ tv_sec := 10, tv_nsec := 700000000 }] [] .readFails [] [] .timedOut)
      { inotifyFd := 3 } { tv_sec := 10, tv_nsec := 200000000 } World.init
      (by decide)).2.2.1⟩

theorem pollBudget_lt (env : Env) (state : State) (prev : Timespec) (w : World)
    (h : ¬ convertToMilliseconds (getTimeDiff (env.clock_gettime w.clockCalls) prev) ≥
      POLL_TIMEOUT) :
    pollBudget env state prev w =
      (toInt32 (POLL_TIMEOUT -
          convertToMilliseconds (getTimeDiff (env.clock_gettime w.clockCalls) prev)),
       prev, { w with clockCalls := w.clockCalls + 1 }) := by
  unfold pollBudget
  simp only [getCurrentTime]
  rw [if_neg h]

theorem pollBudget_ge (env : Env) (state : State) (prev : Timespec) (w : World)
    (h : convertToMilliseconds (getTimeDiff (env.clock_gettime w.clockCalls) prev) ≥
      POLL_TIMEOUT) :
    pollBudget env state prev w =
      (POLL_TIMEOUT, env.clock_gettime (w.clockCalls + 1),
       { w with clockCalls := w.clockCalls + 2, hostCalls := w.hostCalls + 1,
                trace := w.trace ++ [.gethostname] }) := by
  unfold pollBudget
  simp only [getCurrentTime]
  rw [if_pos h, updateLinstorNode_world]

/-- An iteration of the wait loop in which `poll` times out: the loop goes on with the
same `ret` when it is not negative. -/
theorem waitLoop_timedOut (env : Env) (state : State) (wd : Int) (mode : Nat) (fuel : Nat)
    (prev : Timespec) (ret : Int) (w : World)
    (h : env.poll w.pollCalls = .timedOut) (hret : 0 ≤ ret) :
    waitAndProcessEventsLoop env state wd mode (fuel + 1) prev ret true w =
      waitAndProcessEventsLoop env state wd mode fuel (pollBudget env state prev w).2.1 ret true
        (afterPoll env state prev w) := by
  have hp := poll_outcome env state prev w
  rw [h] at hp
  rw [waitAndProcessEventsLoop]
  simp only [hp, afterPoll]
  have hc : ret ≥ 0 ∧ True := ⟨hret, trivial⟩
  rw [if_pos hc]

/-- C13: if an iteration of the loop of `waitAndProcessEvents` computes an elapsed time
`e < 2000` and `poll` times out after at least the requested `2000 - e` milliseconds of
the monotonic clock, then the next iteration computes an elapsed time of at least 2000:
it calls `updateLinstorNode` once, resets `previousTime` to the next clock reading and
passes the full 2000 to `poll`.  On normalized timespecs `convertToMilliseconds` is
monotone and adding `k` milliseconds adds `k`. -/
theorem timed_out_wait_fires_periodic_hook (env : Env) (state : State) (wd : Int) (mode : Nat)
    (fuel : Nat) (prev : Timespec) (ret : Int) (w : World)
    (hret : 0 ≤ ret)
    (hmono : Spec.nanos prev ≤ Spec.nanos (env.clock_gettime w.clockCalls))
    (he : convertToMilliseconds (getTimeDiff (env.clock_gettime w.clockCalls) prev) < 2000)
    (hpoll : env.poll w.pollCalls = .timedOut)
    (hblock : Spec.nanos (env.clock_gettime w.clockCalls) +
        (2000 - convertToMilliseconds (getTimeDiff (env.clock_gettime w.clockCalls) prev)) *
          1000000 ≤ Spec.nanos (env.clock_gettime (w.clockCalls + 1))) :
    (pollBudget env state prev w).1 =
        2000 - convertToMilliseconds (getTimeDiff (env.clock_gettime w.clockCalls) prev) ∧
    waitAndProcessEventsLoop env state wd mode (fuel + 1) prev ret true w =
      waitAndProcessEventsLoop env state wd mode fuel prev ret true
        (afterPoll env state prev w) ∧
    (afterPoll env state prev w).clockCalls = w.clockCalls + 1 ∧
    (afterPoll env state prev w).hostCalls = w.hostCalls ∧
    convertToMilliseconds (getTimeDiff (env.clock_gettime (w.clockCalls + 1)) prev) ≥ 2000 ∧
    (pollBudget env state prev (afterPoll env state prev w)).1 = 2000 ∧
    (pollBudget env state prev (afterPoll env state prev w)).2.1 =
      env.clock_gettime (w.clockCalls + 2) ∧
    (pollBudget env state prev (afterPoll env state prev w)).2.2.hostCalls = w.hostCalls + 1 ∧
    actionsSince (afterPoll env state prev w)
        (pollBudget env state prev (afterPoll env state prev w)).2.2 = [.gethostname] ∧
    (∀ (d d1 : Timespec) (k : Int), Spec.normalized d → Spec.normalized d1 →
      Spec.nanos d1 = Spec.nanos d + k * 1000000 →
      convertToMilliseconds d1 = convertToMilliseconds d + k) ∧
    (∀ (d d1 : Timespec), Spec.normalized d → Spec.normalized d1 →
      Spec.nanos d ≤ Spec.nanos d1 → convertToMilliseconds d ≤ convertToMilliseconds d1) := by
  have hlt : ¬ convertToMilliseconds (getTimeDiff (env.clock_gettime w.clockCalls) prev) ≥
      POLL_TIMEOUT := by
    simp only [POLL_TIMEOUT]; omega
  have e1 := elapsed_eq (env.clock_gettime w.clockCalls) prev
  have e2 := elapsed_eq (env.clock_gettime (w.clockCalls + 1)) prev
  have hb := pollBudget_lt env state prev w hlt
  have hge : convertToMilliseconds (getTimeDiff (env.clock_gettime (w.clockCalls + 1)) prev) ≥
      2000 := by
    rw [e1] at hblock
    rw [e2]
    omega
  have ha : afterPoll env state prev w =
      { w with clockCalls := w.clockCalls + 1, pollCalls := w.pollCalls + 1,
               trace := w.trace ++ [.poll state.inotifyFd (toInt32 (POLL_TIMEOUT -
                 convertToMilliseconds (getTimeDiff (env.clock_gettime w.clockCalls) prev)))] } := by
    unfold afterPoll
    rw [hb]
    rfl
  have hb2 := pollBudget_ge env state prev (afterPoll env state prev w)
    (by rw [ha]; exact hge)
  refine ⟨?_, ?_, ?_, ?_, hge, ?_, ?_, ?_, ?_, ?_, ?_⟩
  · rw [hb]
    show toInt32 _ = _
    simp only [POLL_TIMEOUT]
    rw [e1]
    rw [toInt32_of_small _ (by omega) (by omega)]
  · have h := waitLoop_timedOut env state wd mode fuel prev ret w hpoll hret
    rw [hb] at h
    exact h
  · rw [ha]
  · rw [ha]
  · rw [hb2]
    rfl
  · rw [hb2, ha]
  · rw [hb2, ha]
  · apply actionsSince_append
    rw [hb2]
  · intro d d1 k hd hd1 hk
    rw [convertToMilliseconds_eq d hd, convertToMilliseconds_eq d1 hd1, hk]
    omega
  · intro d d1 hd hd1 hle
    rw [convertToMilliseconds_eq d hd, convertToMilliseconds_eq d1 hd1]
    omega

theorem timed_out_wait_fires_periodic_hook_witness :
    (pollBudget
        (Env.scripted [{ tv_sec := 10, tv_nsec := 700000000 }, { tv_sec := 12, tv_nsec := 200000000 }]
          [] .readFails [] [] .timedOut)
        { inotifyFd := 3 } { tv_sec := 10, tv_nsec := 200000000 }
        (afterPoll
          (Env.scripted [{ tv_sec := 10, tv_nsec := 700000000 }, { tv_sec := 12, tv_nsec := 200000000 }]
            [] .readFails [] [] .timedOut)
          { inotifyFd := 3 } { tv_sec := 10, tv_nsec := 200000000 } World.init)).1 = 2000 :=
  (timed_out_wait_fires_periodic_hook
    (Env.scripted [{ tv_sec := 10, tv_nsec := 700000000 }, { tv_sec := 12, tv_nsec := 200000000 }]
      [] .readFails [] [] .timedOut)
    { inotifyFd := 3 } 1 PROCESS_MODE_DEFAULT 0 { tv_sec := 10, tv_nsec := 200000000 } 0
    World.init (by decide) (by decide) (by decide) rfl (by decide)).2.2.2.2.2.1

/-! ## The periodic hook -/

/-- C14 as stated fails: on `idleEnv` the interval elapses three times in WatchingFile;
each time the hook `updateLinstorNode` runs (`gethostname`), but the configuration file
is read once in the whole run and `execCommand` is called once, at startup. -/
theorem periodic_hook_does_not_reconcile :
    (main idleEnv 0 6 World.init).map
        (fun r => (r.1, r.2.confReads, r.2.execCalls, r.2.hostCalls, r.2.trace)) =
      some (4, 1, 1, 4,
        [.gethostname,
         .inotify_add_watch 3 POOL_CONF_DIR dirWatchMask,
         .execCommand Spec.enableVerb,
         .inotify_add_watch 3 POOL_CONF_ABS_FILE fileWatchMask,
         .inotify_rm_watch 3 1,
         .gethostname, .poll 3 2000,
         .gethostname, .poll 3 2000,
         .gethostname, .poll 3 2000,
         .poll 3 2000,
         .close 3]) := by
  decide

/-- C14, amended: each time the fixed interval has elapsed at the head of an iteration
of the event loop, whatever the notification activity, the periodic hook
`updateLinstorNode` is invoked once (a call of `gethostname`), the timer is reset to the
next clock reading and the wait gets the full interval; the configuration file is not
read and no ServiceController verb is issued on that path. -/
theorem periodic_hook_is_updateLinstorNode_only (env : Env) (state : State) (prev : Timespec)
    (w : World)
    (h : convertToMilliseconds (getTimeDiff (env.clock_gettime w.clockCalls) prev) ≥
      POLL_TIMEOUT) :
    (pollBudget env state prev w).1 = POLL_TIMEOUT ∧
    (pollBudget env state prev w).2.1 = env.clock_gettime (w.clockCalls + 1) ∧
    actionsSince w (pollBudget env state prev w).2.2 = [.gethostname] ∧
    (pollBudget env state prev w).2.2.hostCalls = w.hostCalls + 1 ∧
    (pollBudget env state prev w).2.2.confReads = w.confReads ∧
    (pollBudget env state prev w).2.2.execCalls = w.execCalls ∧
    actionsSince w (afterPoll env state prev w) =
      [.gethostname, .poll state.inotifyFd POLL_TIMEOUT] ∧
    (afterPoll env state prev w).confReads = w.confReads ∧
    (afterPoll env state prev w).execCalls = w.execCalls := by
  have hb := pollBudget_ge env state prev w h
  have ha : afterPoll env state prev w =
      { w with clockCalls := w.clockCalls + 2, hostCalls := w.hostCalls + 1,
               pollCalls := w.pollCalls + 1,
               trace := w.trace ++ [.gethostname] ++ [.poll state.inotifyFd POLL_TIMEOUT] } := by
    unfold afterPoll
    rw [hb]
    rfl
  refine ⟨?_, ?_, ?_, ?_, ?_, ?_, ?_, ?_, ?_⟩
  · rw [hb]
  · rw [hb]
  · apply actionsSince_append
    rw [hb]
  · rw [hb]
  · rw [hb]
  · rw [hb]
  · apply actionsSince_append
    rw [ha]
    simp
  · rw [ha]
  · rw [ha]

theorem periodic_hook_is_updateLinstorNode_only_witness :
    actionsSince World.init
      (afterPoll
        (Env.scripted [{ tv_sec := 2, tv_nsec := 0 }] [] (.content (bytes "master\n")) [] []
          .timedOut)
        { inotifyFd := 3 } { tv_sec := 0, tv_nsec := 0 } World.init) =
      [.gethostname, .poll 3 POLL_TIMEOUT] :=
  (periodic_hook_is_updateLinstorNode_only
    (Env.scripted [{ tv_sec := 2, tv_nsec := 0 }] [] (.content (bytes "master\n")) [] []
      .timedOut)
    { inotifyFd := 3 } { tv_sec := 0, tv_nsec := 0 } World.init (by decide)).2.2.2.2.2.2.1

/-! ## Repeated reconciliation -/

theorem execCommand_fst (env : Env) (argv : List String) (w : World) :
    (execCommand env argv w).1 =
      match env.exec w.execCalls with
      | .forkFails errno => errno.neg
      | .waitFails errno => errno.neg
      | .waited _ => 0 := by
  unfold execCommand
  cases env.exec w.execCalls <;> rfl

theorem updateLinstorServices_of_no_error (env : Env) (w : World)
    (h : (isMasterHost (env.poolConf w.confReads)).2 = 0) :
    updateLinstorServices env w =
      execCommand env ["systemctl",
        if (isMasterHost (env.poolConf w.confReads)).1 ≠ 0 then "enable" else "disable",
        "--now", "linstor-controller"] { w with confReads := w.confReads + 1 } := by
  unfold updateLinstorServices
  simp only [h, ne_eq, not_true_eq_false, if_false]

/-- C17 as stated fails: `main` registers the directory watch before the first
reconciliation.  On `noDirEnv` that registration fails and `main` returns without ever
reading the file; on `interruptedEnv` the first command, issued by the first
`updateLinstorServices` call, follows the registration of the directory watch, which
leaves the watch 1 on the directory registered. -/
theorem first_reconciliation_follows_directory_watch :
    (main noDirEnv 0 3 World.init).map (fun r => (r.1, r.2.confReads, r.2.trace)) =
      some (2, 0, [.gethostname, .inotify_add_watch 3 POOL_CONF_DIR dirWatchMask, .close 3]) ∧
    (main interruptedEnv 0 5 World.init).map (fun r => r.2.trace.take 3) =
      some [.gethostname, .inotify_add_watch 3 POOL_CONF_DIR dirWatchMask,
            .execCommand Spec.enableVerb] ∧
    (addInotifyWatch interruptedEnv 3 POOL_CONF_DIR dirWatchMask
      (updateLinstorNode interruptedEnv { inotifyFd := 3 } World.init).2).2.watches =
      [(1, POOL_CONF_DIR)] := by
  refine ⟨by decide, by decide, by decide⟩

/-- C17, amended: at startup `main` first registers the directory-level watch.  If that
fails `main` returns without attempting reconciliation.  Otherwise every reconciliation
of `waitForPoolConfCreation`, the first one included, is made after that registration:
at the first `updateLinstorServices` call the directory watch is registered, no
file-level watch is, and the file has not been read yet; when that first attempt succeeds
and the file watch is registered, the command precedes the registration of the file
watch. -/
theorem startup_registers_directory_watch_first (env : Env) (uninit : Int) (fd : Nat)
    (w : World) (hinit : env.inotify_init1 = .ok fd) (hw : w.watches = []) :
    (∀ (fuel : Nat) (e : Errno), env.inotify_add_watch w.addCalls = .fails e →
      ∃ w1, main env uninit (fuel + 1) w = some ((e.code : Int), w1) ∧
        w1.confReads = w.confReads ∧
        actionsSince w w1 =
          [.gethostname, .inotify_add_watch (fd : Int) POOL_CONF_DIR dirWatchMask,
           .close (fd : Int)]) ∧
    (∀ (fuel : Nat) (d : Nat), env.inotify_add_watch w.addCalls = .ok d →
      ∃ wA,
        addInotifyWatch env (fd : Int) POOL_CONF_DIR dirWatchMask
          (updateLinstorNode env { inotifyFd := (fd : Int) } w).2 = ((d : Int), wA) ∧
        wA.watches = [((d : Int), POOL_CONF_DIR)] ∧ wA.confReads = w.confReads ∧
        wA.execCalls = w.execCalls ∧
        actionsSince w wA =
          [.gethostname, .inotify_add_watch (fd : Int) POOL_CONF_DIR dirWatchMask] ∧
        waitForPoolConfCreation env { inotifyFd := (fd : Int) } fuel uninit
            (updateLinstorNode env { inotifyFd := (fd : Int) } w).2 =
          (match creationLoop env { inotifyFd := (fd : Int) } (d : Int) fuel uninit wA with
           | none => none
           | some (ret, wdFile1, w1) =>
             some (ret, wdFile1, inotify_rm_watch (fd : Int) (d : Int) w1)) ∧
        (∀ f, reconcileLoop env { inotifyFd := (fd : Int) } (d : Int) (f + 1) wA =
          if (updateLinstorServices env wA).1 = ENOENT.neg ∨
              (updateLinstorServices env wA).1 = EIO.neg then
            match waitAndProcessDirEvents env { inotifyFd := (fd : Int) } f (d : Int)
                (updateLinstorServices env wA).2 with
            | none => none
            | some (ret, w1) =>
              if ret = 0 then reconcileLoop env { inotifyFd := (fd : Int) } (d : Int) f w1
              else some (ret, w1)
          else some (updateLinstorServices env wA))) ∧
    (∀ (fuel : Nat) (d dNew : Nat) (data line : List Nat) (status : Nat),
      env.inotify_add_watch w.addCalls = .ok d →
      env.poolConf w.confReads = .content data → fgets 512 data = some line →
      env.exec w.execCalls = .waited status →
      env.inotify_add_watch (w.addCalls + 1) = .ok dNew →
      ∃ argv w1, (argv = Spec.enableVerb ∨ argv = Spec.disableVerb) ∧
        waitForPoolConfCreation env { inotifyFd := (fd : Int) } (fuel + 2) uninit
            (updateLinstorNode env { inotifyFd := (fd : Int) } w).2 =
          some (0, (dNew : Int), w1) ∧
        actionsSince w w1 =
          [.gethostname,
           .inotify_add_watch (fd : Int) POOL_CONF_DIR dirWatchMask,
           .execCommand argv,
           .inotify_add_watch (fd : Int) POOL_CONF_ABS_FILE fileWatchMask,
           .inotify_rm_watch (fd : Int) (d : Int)]) := by
  obtain ⟨w0, hn, n1, n2, n3, n4, n5⟩ : ∃ w0,
      (updateLinstorNode env { inotifyFd := (fd : Int) } w).2 = w0 ∧
      w0.addCalls = w.addCalls ∧ w0.confReads = w.confReads ∧ w0.execCalls = w.execCalls ∧
      w0.watches = w.watches ∧ w0.trace = w.trace ++ [.gethostname] :=
    ⟨_, updateLinstorNode_world env _ w, rfl, rfl, rfl, rfl, rfl⟩
  rw [hn]
  refine ⟨?_, ?_, ?_⟩
  · intro fuel e hadd
    have ha := addInotifyWatch_fails env (fd : Int) POOL_CONF_DIR dirWatchMask w0 e
      (by rw [n1]; exact hadd)
    have hwf : waitForPoolConfCreation env { inotifyFd := (fd : Int) } fuel uninit w0 =
        some (e.neg, uninit,
          { w0 with addCalls := w0.addCalls + 1,
                    trace := w0.trace ++
                      [.inotify_add_watch (fd : Int) POOL_CONF_DIR dirWatchMask] }) := by
      unfold waitForPoolConfCreation
      simp only [ha]
      rw [if_pos (Errno.neg_neg e)]
    have hfd : ¬ ((fd : Int) < 0) := by omega
    refine ⟨{ w0 with addCalls := w0.addCalls + 1,
                      trace := w0.trace ++
                        [.inotify_add_watch (fd : Int) POOL_CONF_DIR dirWatchMask] ++
                        [.close (fd : Int)] }, ?_, n2, ?_⟩
    · unfold main createInotifyInstance
      simp only [hinit]
      rw [if_neg hfd, hn, mainLoop, if_pos (Or.inl rfl), hwf]
      simp only [Errno.neg_neg e, if_true]
      simp [Errno.neg]
    · apply actionsSince_append
      show w0.trace ++ _ ++ _ = _
      rw [n5]
      simp
  · intro fuel d hadd
    have ha := addInotifyWatch_ok env (fd : Int) POOL_CONF_DIR dirWatchMask w0 d
      (by rw [n1]; exact hadd)
    refine ⟨_, ha, ?_, n2, n3, ?_, ?_, ?_⟩
    · show w0.watches.filter _ ++ _ = _
      rw [n4, hw]
      rfl
    · apply actionsSince_append
      show w0.trace ++ _ = _
      rw [n5]
      simp
    · unfold waitForPoolConfCreation
      simp only [ha]
      have hd : ¬ ((d : Int) < 0) := by omega
      rw [if_neg hd]
    · intro f
      rw [reconcileLoop]
  · intro fuel d dNew data line status hadd hconf hline hexec hfile
    obtain ⟨argv, w1, hargv, hcre, t1, -⟩ :=
      waitForPoolConfCreation_at_once env { inotifyFd := (fd : Int) } uninit fuel
        w0 d dNew data line status
        (by rw [n1]; exact hadd) (by rw [n2]; exact hconf) hline (by rw [n3]; exact hexec)
        (by rw [n1]; exact hfile)
    refine ⟨argv, w1, hargv, hcre, ?_⟩
    apply actionsSince_append
    rw [t1, n5]
    simp

theorem startup_registers_directory_watch_first_witness :
    ∃ w1, main noDirEnv 0 (0 + 1) World.init = some (((ENOENT).code : Int), w1) ∧
      w1.confReads = World.init.confReads ∧
      actionsSince World.init w1 =
        [.gethostname, .inotify_add_watch ((3 : Nat) : Int) POOL_CONF_DIR dirWatchMask,
         .close ((3 : Nat) : Int)] :=
  (startup_registers_directory_watch_first noDirEnv 0 3 World.init rfl rfl).1 0 ENOENT rfl

/-! ## Results of the loops -/

theorem isMasterHost_error_nonpos (conf : PoolConf) : (isMasterHost conf).2 ≤ 0 := by
  cases conf with
  | openFails e =>
    have := Errno.neg_neg e
    simp only [isMasterHost, readPoolConf, this, if_true]
    omega
  | readFails => decide
  | content data =>
    cases hf : fgets 512 data with
    | none =>
      have h5 : EIO.neg < 0 := by decide
      simp only [isMasterHost, readPoolConf, hf, h5, if_true]
      decide
    | some line =>
      rw [isMasterHost_of_line data line hf]

theorem execCommand_nonpos (env : Env) (argv : List String) (w : World) :
    (execCommand env argv w).1 ≤ 0 := by
  rw [execCommand_fst]
  cases env.exec w.execCalls with
  | forkFails e => have := Errno.neg_neg e; simp only; omega
  | waitFails e => have := Errno.neg_neg e; simp only; omega
  | waited s => exact Int.le_refl 0

theorem updateLinstorServices_nonpos (env : Env) (w : World) :
    (updateLinstorServices env w).1 ≤ 0 := by
  by_cases h : (isMasterHost (env.poolConf w.confReads)).2 = 0
  · rw [updateLinstorServices_of_no_error env w h]
    exact execCommand_nonpos env _ _
  · rw [updateLinstorServices_of_error env w _ rfl h]
    exact isMasterHost_error_nonpos _

/-- In WatchingFile mode `processPoolConfEvents` leaves `*process` as it is. -/
theorem processPoolConfEvents_default_process (env : Env) (fd wd : Int) (process : Bool)
    (r : ReadOutcome) (w : World) :
    (processPoolConfEvents env fd wd PROCESS_MODE_DEFAULT process r w).2.1 = process := by
  unfold processPoolConfEvents
  cases r with
  | fails e => rfl
  | batch events =>
    simp only
    cases scanEvents wd PROCESS_MODE_DEFAULT events 0 with
    | error c => rfl
    | ok mask =>
      simp only [if_true]
      split
      · rfl
      · split <;> rfl

theorem processPoolConfEvents_nonpos (env : Env) (fd wd : Int) (mode : Nat) (process : Bool)
    (r : ReadOutcome) (w : World) :
    (processPoolConfEvents env fd wd mode process r w).1 ≤ 0 := by
  unfold processPoolConfEvents
  cases r with
  | fails e => have := Errno.neg_neg e; simp only; omega
  | batch events =>
    simp only
    cases hs : scanEvents wd mode events 0 with
    | error c =>
      simp only
      by_cases hd : ∃ e ∈ events, dirRemoval wd mode e
      · rw [scanEvents_error wd mode events hd 0] at hs
        cases hs
        decide
      · obtain ⟨mask, hm, -⟩ := scanEvents_ok wd mode events
          (fun e he hr => hd ⟨e, he, hr⟩) 0
        rw [hm] at hs
        cases hs
    | ok mask =>
      simp only
      split
      · split
        · exact Int.le_refl 0
        · split
          · show EIO.neg ≤ 0
            decide
          · exact updateLinstorServices_nonpos env w
      · split <;> exact Int.le_refl 0

/-- In AwaitingFileCreation mode `processPoolConfEvents` leaves the world as it is. -/
theorem processPoolConfEvents_wait_world (env : Env) (fd wd : Int) (process : Bool)
    (r : ReadOutcome) (w : World) :
    (processPoolConfEvents env fd wd PROCESS_MODE_WAIT_FILE_CREATION process r w).2.2 = w := by
  unfold processPoolConfEvents
  cases r with
  | fails e => rfl
  | batch events =>
    simp only
    cases scanEvents wd PROCESS_MODE_WAIT_FILE_CREATION events 0 with
    | error c => rfl
    | ok mask =>
      simp only [wait_ne_default, if_false]
      split <;> rfl

/-- One iteration of the wait loop, by the outcome of `poll`. -/
theorem waitLoop_succ (env : Env) (state : State) (wd : Int) (mode : Nat) (fuel : Nat)
    (prev : Timespec) (ret : Int) (process : Bool) (w : World) :
    ∃ (c : Int) (p : Bool) (w1 : World),
      waitAndProcessEventsLoop env state wd mode (fuel + 1) prev ret process w =
        (if c ≥ 0 ∧ p = true then
          waitAndProcessEventsLoop env state wd mode fuel (pollBudget env state prev w).2.1 c p w1
         else some (c, w1)) ∧
      ((c = ret ∧ p = process ∧ w1 = afterPoll env state prev w) ∨
       (c < 0 ∧ p = process ∧ w1 = afterPoll env state prev w ∧
          ∃ e, env.poll w.pollCalls = .failed e ∧ e ≠ EAGAIN ∧ c = e.neg) ∨
       (∃ r, env.poll w.pollCalls = .ready r ∧
          (c, p, w1) = processPoolConfEvents env state.inotifyFd wd mode process r
            (afterPoll env state prev w))) := by
  have hp := poll_outcome env state prev w
  cases hpo : env.poll w.pollCalls with
  | failed e =>
    rw [hpo] at hp
    by_cases he : e = EAGAIN
    · refine ⟨ret, process, afterPoll env state prev w, ?_, Or.inl ⟨rfl, rfl, rfl⟩⟩
      rw [waitAndProcessEventsLoop]
      simp only [hp, he, if_true, afterPoll]
    · refine ⟨e.neg, process, afterPoll env state prev w, ?_,
        Or.inr (Or.inl ⟨Errno.neg_neg e, rfl, rfl, e, rfl, he, rfl⟩)⟩
      rw [waitAndProcessEventsLoop]
      simp only [hp, he, if_false, afterPoll]
  | timedOut =>
    rw [hpo] at hp
    refine ⟨ret, process, afterPoll env state prev w, ?_, Or.inl ⟨rfl, rfl, rfl⟩⟩
    rw [waitAndProcessEventsLoop]
    simp only [hp, afterPoll]
  | ready r =>
    refine ⟨_, _, _, waitLoop_ready env state wd mode fuel prev ret process w r hpo,
      Or.inr (Or.inr ⟨r, rfl, rfl⟩)⟩

theorem followsWithoutRm_refl (w : World) : followsWithoutRm w w :=
  ⟨[], by simp, fun _ h => by simp at h⟩

theorem followsWithoutRm_trans (w w1 w2 : World) (h1 : followsWithoutRm w w1)
    (h2 : followsWithoutRm w1 w2) : followsWithoutRm w w2 := by
  obtain ⟨l1, e1, n1⟩ := h1
  obtain ⟨l2, e2, n2⟩ := h2
  refine ⟨l1 ++ l2, by rw [e2, e1, List.append_assoc], ?_⟩
  intro a ha
  rcases List.mem_append.1 ha with h | h
  · exact n1 a h
  · exact n2 a h

theorem followsWithoutRm_of_trace_eq (w w1 : World) (h : w1.trace = w.trace) :
    followsWithoutRm w w1 :=
  ⟨[], by simp [h], fun _ h => by simp at h⟩

theorem afterPoll_follows (env : Env) (state : State) (prev : Timespec) (w : World) :
    followsWithoutRm w (afterPoll env state prev w) := by
  by_cases h : convertToMilliseconds (getTimeDiff (env.clock_gettime w.clockCalls) prev) ≥
      POLL_TIMEOUT
  · refine ⟨[.gethostname, .poll state.inotifyFd POLL_TIMEOUT], ?_, ?_⟩
    · unfold afterPoll
      rw [pollBudget_ge env state prev w h]
      simp [poll]
    · intro a ha fd wd hne
      subst hne
      simp at ha
  · refine ⟨[.poll state.inotifyFd (toInt32 (POLL_TIMEOUT -
      convertToMilliseconds (getTimeDiff (env.clock_gettime w.clockCalls) prev)))], ?_, ?_⟩
    · unfold afterPoll
      rw [pollBudget_lt env state prev w h]
      rfl
    · intro a ha fd wd hne
      subst hne
      simp at ha

theorem updateLinstorServices_follows (env : Env) (w : World) :
    followsWithoutRm w (updateLinstorServices env w).2 := by
  by_cases h : (isMasterHost (env.poolConf w.confReads)).2 = 0
  · rw [updateLinstorServices_of_no_error env w h, execCommand_world]
    refine ⟨[_], rfl, ?_⟩
    intro a ha fd wd hne
    subst hne
    simp at ha
  · rw [updateLinstorServices_of_error env w _ rfl h]
    exact followsWithoutRm_of_trace_eq _ _ rfl

theorem addInotifyWatch_follows (env : Env) (fd : Int) (path : String) (mask : Nat)
    (w : World) : followsWithoutRm w (addInotifyWatch env fd path mask w).2 := by
  refine ⟨[.inotify_add_watch fd path mask], ?_, ?_⟩
  · unfold addInotifyWatch
    cases env.inotify_add_watch w.addCalls <;> rfl
  · intro a ha fd1 wd hne
    subst hne
    simp at ha

/-- The wait loop of WatchingFile returns only negative results. -/
theorem waitLoop_default_neg (env : Env) (state : State) (wd : Int) (fuel : Nat)
    (prev : Timespec) (ret : Int) (w : World) (r : Int) (w1 : World)
    (h : waitAndProcessEventsLoop env state wd PROCESS_MODE_DEFAULT fuel prev ret true w =
      some (r, w1)) : r < 0 := by
  induction fuel generalizing prev ret w with
  | zero => simp [waitAndProcessEventsLoop] at h
  | succ k ih =>
    obtain ⟨c, p, w2, hstep, hcase⟩ :=
      waitLoop_succ env state wd PROCESS_MODE_DEFAULT k prev ret true w
    have hp : p = true := by
      rcases hcase with ⟨-, hp, -⟩ | ⟨-, hp, -⟩ | ⟨ro, -, heq⟩
      · exact hp
      · exact hp
      · have := congrArg (fun x => x.2.1) heq
        simp only at this
        rw [this]
        exact processPoolConfEvents_default_process env _ wd true ro _
    subst hp
    rw [hstep] at h
    by_cases hc : c ≥ 0 ∧ true = true
    · rw [if_pos hc] at h
      exact ih _ _ _ h
    · rw [if_neg hc] at h
      simp only [Option.some.injEq, Prod.mk.injEq] at h
      have : ¬ c ≥ 0 := fun h0 => hc ⟨h0, rfl⟩
      omega

/-- The wait loop returns a result that is not positive when it is entered with one. -/
theorem waitLoop_nonpos (env : Env) (state : State) (wd : Int) (mode : Nat) (fuel : Nat)
    (prev : Timespec) (ret : Int) (process : Bool) (w : World) (r : Int) (w1 : World)
    (hret : ret ≤ 0)
    (h : waitAndProcessEventsLoop env state wd mode fuel prev ret process w = some (r, w1)) :
    r ≤ 0 := by
  induction fuel generalizing prev ret process w with
  | zero => simp [waitAndProcessEventsLoop] at h
  | succ k ih =>
    obtain ⟨c, p, w2, hstep, hcase⟩ := waitLoop_succ env state wd mode k prev ret process w
    have hc0 : c ≤ 0 := by
      rcases hcase with ⟨hc, -, -⟩ | ⟨hc, -⟩ | ⟨ro, -, heq⟩
      · omega
      · omega
      · have := congrArg (fun x => x.1) heq
        simp only at this
        rw [this]
        exact processPoolConfEvents_nonpos env _ wd mode process ro _
    rw [hstep] at h
    by_cases hc : c ≥ 0 ∧ p = true
    · rw [if_pos hc] at h
      exact ih _ _ _ _ hc0 h
    · rw [if_neg hc] at h
      simp only [Option.some.injEq, Prod.mk.injEq] at h
      omega

/-- The wait loop of AwaitingFileCreation makes no call of `inotify_rm_watch`, and a
result 0 comes with `*process` cleared or was the value of `ret` at entry. -/
theorem waitLoop_wait_follows (env : Env) (state : State) (wd : Int) (fuel : Nat)
    (prev : Timespec) (ret : Int) (process : Bool) (w : World) (r : Int) (w1 : World)
    (h : waitAndProcessEventsLoop env state wd PROCESS_MODE_WAIT_FILE_CREATION fuel prev ret
      process w = some (r, w1)) : followsWithoutRm w w1 := by
  induction fuel generalizing prev ret process w with
  | zero => simp [waitAndProcessEventsLoop] at h
  | succ k ih =>
    obtain ⟨c, p, w2, hstep, hcase⟩ :=
      waitLoop_succ env state wd PROCESS_MODE_WAIT_FILE_CREATION k prev ret process w
    have hw2 : w2 = afterPoll env state prev w := by
      rcases hcase with ⟨-, -, hw⟩ | ⟨-, -, hw, -⟩ | ⟨ro, -, heq⟩
      · exact hw
      · exact hw
      · have := congrArg (fun x => x.2.2) heq
        simp only at this
        rw [this]
        exact processPoolConfEvents_wait_world env _ wd process ro _
    subst hw2
    rw [hstep] at h
    by_cases hc : c ≥ 0 ∧ p = true
    · rw [if_pos hc] at h
      exact followsWithoutRm_trans _ _ _ (afterPoll_follows env state prev w) (ih _ _ _ _ h)
    · rw [if_neg hc] at h
      simp only [Option.some.injEq, Prod.mk.injEq] at h
      rw [← h.2]
      exact afterPoll_follows env state prev w

/-- What the inner loop of `waitForPoolConfCreation` returns: a result that is not
positive, after no call of `inotify_rm_watch`; a result 0 is the result of its last
reconciliation. -/
theorem reconcileLoop_result (env : Env) (state : State) (wdDir : Int) (fuel : Nat)
    (w : World) (ret : Int) (w1 : World)
    (h : reconcileLoop env state wdDir fuel w = some (ret, w1)) :
    ret ≤ 0 ∧ followsWithoutRm w w1 ∧
      (ret = 0 → ∃ w0, updateLinstorServices env w0 = (0, w1)) := by
  induction fuel generalizing w with
  | zero => simp [reconcileLoop] at h
  | succ k ih =>
    rw [reconcileLoop] at h
    by_cases hu : (updateLinstorServices env w).1 = ENOENT.neg ∨
        (updateLinstorServices env w).1 = EIO.neg
    · rw [if_pos hu] at h
      cases hw : waitAndProcessDirEvents env state k wdDir (updateLinstorServices env w).2 with
      | none => rw [hw] at h; simp at h
      | some r2 =>
        obtain ⟨c, w2⟩ := r2
        rw [hw] at h
        simp only at h
        have hf : followsWithoutRm w w2 := by
          apply followsWithoutRm_trans _ _ _ (updateLinstorServices_follows env w)
          rw [waitAndProcessDirEvents_eq] at hw
          have hf2 := waitLoop_wait_follows env state wdDir k _ 0 true _ c w2 hw
          exact followsWithoutRm_trans _ _ _ (followsWithoutRm_of_trace_eq _ _ rfl) hf2
        by_cases hc : c = 0
        · rw [if_pos hc] at h
          obtain ⟨i1, i2, i3⟩ := ih w2 h
          exact ⟨i1, followsWithoutRm_trans _ _ _ hf i2, i3⟩
        · rw [if_neg hc] at h
          simp only [Option.some.injEq, Prod.mk.injEq] at h
          obtain ⟨h1, h2⟩ := h
          subst h1 h2
          rw [waitAndProcessDirEvents_eq] at hw
          refine ⟨waitLoop_nonpos env state wdDir _ k _ 0 true _ c w2 (Int.le_refl 0) hw, hf, ?_⟩
          intro h0
          exact absurd h0 hc
    · rw [if_neg hu] at h
      simp only [Option.some.injEq] at h
      refine ⟨?_, ?_, ?_⟩
      · have := updateLinstorServices_nonpos env w
        rw [h] at this
        exact this
      · have := updateLinstorServices_follows env w
        rw [h] at this
        exact this
      · intro h0
        subst h0
        exact ⟨w, h⟩

/-- What the outer loop of `waitForPoolConfCreation` returns: a result that is not
positive, after no call of `inotify_rm_watch`; with a result 0 the last reconciliation
returned 0, the registration of the file watch that followed succeeded, and `*wdFile` is
the handle it returned. -/
theorem creationLoop_result (env : Env) (state : State) (wdDir : Int) (fuel : Nat)
    (wf : Int) (w : World) (ret wdFile : Int) (w1 : World)
    (h : creationLoop env state wdDir fuel wf w = some (ret, wdFile, w1)) :
    ret ≤ 0 ∧ followsWithoutRm w w1 ∧
      (ret = 0 → ∃ (w0 wB : World) (dNew : Nat),
        updateLinstorServices env w0 = (0, wB) ∧
        env.inotify_add_watch wB.addCalls = .ok dNew ∧
        addInotifyWatch env state.inotifyFd POOL_CONF_ABS_FILE fileWatchMask wB =
          ((dNew : Int), w1) ∧
        wdFile = (dNew : Int)) := by
  induction fuel generalizing wf w with
  | zero => simp [creationLoop] at h
  | succ k ih =>
    rw [creationLoop] at h
    cases hr : reconcileLoop env state wdDir k w with
    | none => rw [hr] at h; simp at h
    | some r2 =>
      obtain ⟨c, w2⟩ := r2
      rw [hr] at h
      simp only at h
      obtain ⟨r1, rf, r0⟩ := reconcileLoop_result env state wdDir k w c w2 hr
      by_cases hc : c = 0
      · subst hc
        simp only [if_true] at h
        obtain ⟨w0, hw0⟩ := r0 rfl
        have hfa := addInotifyWatch_follows env state.inotifyFd POOL_CONF_ABS_FILE
          fileWatchMask w2
        cases ha : env.inotify_add_watch w2.addCalls with
        | fails e =>
          have hadd := addInotifyWatch_fails env state.inotifyFd POOL_CONF_ABS_FILE
            fileWatchMask w2 e ha
          rw [hadd] at h hfa
          simp only [Errno.neg_neg e, if_true] at h
          by_cases he : e.neg = ENOENT.neg
          · rw [if_pos he] at h
            obtain ⟨i1, i2, i3⟩ := ih _ _ h
            exact ⟨i1, followsWithoutRm_trans _ _ _ (followsWithoutRm_trans _ _ _ rf hfa) i2, i3⟩
          · rw [if_neg he] at h
            simp only [Option.some.injEq, Prod.mk.injEq] at h
            obtain ⟨h1, -, h3⟩ := h
            have hneg := Errno.neg_neg e
            refine ⟨by omega, ?_, ?_⟩
            · rw [← h3]
              exact followsWithoutRm_trans _ _ _ rf hfa
            · intro h0
              omega
        | ok dNew =>
          have hadd := addInotifyWatch_ok env state.inotifyFd POOL_CONF_ABS_FILE
            fileWatchMask w2 dNew ha
          have hadd0 := hadd
          rw [hadd] at h hfa
          have hd : ¬ ((dNew : Int) < 0) := by omega
          have h2 : ¬ ((0 : Int) = ENOENT.neg) := by decide
          simp only [hd, h2, if_false, Option.some.injEq, Prod.mk.injEq] at h
          obtain ⟨h1, h3, h4⟩ := h
          refine ⟨by omega, ?_, ?_⟩
          · rw [← h4]
            exact followsWithoutRm_trans _ _ _ rf hfa
          · intro _
            refine ⟨w0, w2, dNew, hw0, ha, ?_, h3.symm⟩
            rw [hadd0, h4]
      · rw [if_neg hc] at h
        simp only at h
        by_cases he : c = ENOENT.neg
        · rw [if_pos he] at h
          obtain ⟨i1, i2, i3⟩ := ih _ _ h
          exact ⟨i1, followsWithoutRm_trans _ _ _ rf i2, i3⟩
        · rw [if_neg he] at h
          simp only [Option.some.injEq, Prod.mk.injEq] at h
          obtain ⟨h1, -, h3⟩ := h
          refine ⟨by omega, ?_, ?_⟩
          · rw [← h3]
            exact rf
          · intro h0
            omega

/-- What `waitForPoolConfCreation` returns. -/
theorem waitForPoolConfCreation_result (env : Env) (state : State) (fuel : Nat)
    (uninit : Int) (w : World) (ret wdFile : Int) (w1 : World)
    (h : waitForPoolConfCreation env state fuel uninit w = some (ret, wdFile, w1)) :
    ret ≤ 0 ∧
    (ret = 0 → ∃ (w0 wB wC : World) (dNew dDir : Nat),
      updateLinstorServices env w0 = (0, wB) ∧
      env.inotify_add_watch wB.addCalls = .ok dNew ∧
      addInotifyWatch env state.inotifyFd POOL_CONF_ABS_FILE fileWatchMask wB =
        ((dNew : Int), wC) ∧
      wdFile = (dNew : Int) ∧ 0 ≤ wdFile ∧
      env.inotify_add_watch w.addCalls = .ok dDir ∧
      w1 = inotify_rm_watch state.inotifyFd (dDir : Int) wC) ∧
    (∀ d : Nat, env.inotify_add_watch w.addCalls = .ok d →
      ∃ l, actionsSince w w1 =
          [.inotify_add_watch state.inotifyFd POOL_CONF_DIR dirWatchMask] ++ l ++
            [.inotify_rm_watch state.inotifyFd (d : Int)] ∧
        noRmWatch l) ∧
    (∀ e : Errno, env.inotify_add_watch w.addCalls = .fails e →
      ret = e.neg ∧ wdFile = uninit ∧
      actionsSince w w1 = [.inotify_add_watch state.inotifyFd POOL_CONF_DIR dirWatchMask]) := by
  unfold waitForPoolConfCreation at h
  cases ha : env.inotify_add_watch w.addCalls with
  | fails e =>
    have hadd := addInotifyWatch_fails env state.inotifyFd POOL_CONF_DIR dirWatchMask w e ha
    simp only [hadd, Errno.neg_neg e, if_true, Option.some.injEq, Prod.mk.injEq] at h
    obtain ⟨h1, h2, h3⟩ := h
    have hneg := Errno.neg_neg e
    refine ⟨by omega, ?_, ?_, ?_⟩
    · intro h0
      omega
    · intro d hd
      cases hd
    · intro e1 he1
      cases he1
      refine ⟨h1.symm, h2.symm, ?_⟩
      apply actionsSince_append
      rw [← h3]
  | ok d =>
    have hadd := addInotifyWatch_ok env state.inotifyFd POOL_CONF_DIR dirWatchMask w d ha
    have hd : ¬ ((d : Int) < 0) := by omega
    simp only [hadd, hd, if_false] at h
    cases hc : creationLoop env state (d : Int) fuel uninit
        { w with addCalls := w.addCalls + 1,
                 trace := w.trace ++ [.inotify_add_watch state.inotifyFd POOL_CONF_DIR dirWatchMask],
                 watches := w.watches.filter (fun x => x.1 ≠ (d : Int)) ++
                   [((d : Int), POOL_CONF_DIR)] } with
    | none => rw [hc] at h; simp at h
    | some r2 =>
      obtain ⟨c, f, w2⟩ := r2
      rw [hc] at h
      simp only [Option.some.injEq, Prod.mk.injEq] at h
      obtain ⟨h1, h2, h3⟩ := h
      obtain ⟨r1, ⟨l, hl, hn⟩, r0⟩ := creationLoop_result env state (d : Int) fuel uninit _ c f w2 hc
      refine ⟨by omega, ?_, ?_, ?_⟩
      · intro h0
        obtain ⟨w0, wB, dNew, q1, q2, q3, q4⟩ := r0 (by omega)
        refine ⟨w0, wB, w2, dNew, d, q1, q2, q3, by rw [← h2]; exact q4, ?_, rfl, h3.symm⟩
        rw [← h2, q4]
        omega
      · intro d1 hd1
        cases hd1
        refine ⟨l, ?_, hn⟩
        apply actionsSince_append
        rw [← h3]
        show w2.trace ++ _ = _
        rw [hl]
        simp
      · intro e he
        cases he

/-- The value of the caller's variable at entry does not influence what the outer loop
of `waitForPoolConfCreation` returns, apart from `*wdFile` when the result is not 0. -/
theorem creationLoop_uninit (env : Env) (state : State) (wdDir : Int) (fuel : Nat)
    (wf1 wf2 : Int) (w : World) :
    (creationLoop env state wdDir fuel wf1 w = none ∧
      creationLoop env state wdDir fuel wf2 w = none) ∨
    ∃ (ret f1 f2 : Int) (w1 : World),
      creationLoop env state wdDir fuel wf1 w = some (ret, f1, w1) ∧
      creationLoop env state wdDir fuel wf2 w = some (ret, f2, w1) ∧
      (ret = 0 → f1 = f2) := by
  induction fuel generalizing wf1 wf2 w with
  | zero => exact Or.inl ⟨rfl, rfl⟩
  | succ k ih =>
    rw [creationLoop, creationLoop]
    cases hr : reconcileLoop env state wdDir k w with
    | none => exact Or.inl ⟨rfl, rfl⟩
    | some r2 =>
      obtain ⟨c, w2⟩ := r2
      simp only
      by_cases hc : c = 0
      · subst hc
        simp only [if_true]
        cases hx : (if (if (addInotifyWatch env state.inotifyFd POOL_CONF_ABS_FILE fileWatchMask
              w2).1 < 0 then
                (addInotifyWatch env state.inotifyFd POOL_CONF_ABS_FILE fileWatchMask w2).1
              else 0) = ENOENT.neg then
            creationLoop env state wdDir k
              (addInotifyWatch env state.inotifyFd POOL_CONF_ABS_FILE fileWatchMask w2).1
              (addInotifyWatch env state.inotifyFd POOL_CONF_ABS_FILE fileWatchMask w2).2
          else some
            (if (addInotifyWatch env state.inotifyFd POOL_CONF_ABS_FILE fileWatchMask w2).1 < 0
              then (addInotifyWatch env state.inotifyFd POOL_CONF_ABS_FILE fileWatchMask w2).1
              else 0,
             (addInotifyWatch env state.inotifyFd POOL_CONF_ABS_FILE fileWatchMask w2).1,
             (addInotifyWatch env state.inotifyFd POOL_CONF_ABS_FILE fileWatchMask w2).2)) with
        | none => exact Or.inl ⟨rfl, rfl⟩
        | some r3 =>
          obtain ⟨a, b, c3⟩ := r3
          exact Or.inr ⟨a, b, b, c3, rfl, rfl, fun _ => rfl⟩
      · simp only [hc, if_false]
        by_cases he : c = ENOENT.neg
        · simp only [he, if_true]
          exact ih wf1 wf2 w2
        · simp only [he, if_false]
          exact Or.inr ⟨c, wf1, wf2, w2, rfl, rfl, fun h0 => absurd h0 hc⟩

theorem waitForPoolConfCreation_uninit (env : Env) (state : State) (fuel : Nat)
    (u1 u2 : Int) (w : World) :
    (waitForPoolConfCreation env state fuel u1 w = none ∧
      waitForPoolConfCreation env state fuel u2 w = none) ∨
    ∃ (ret f1 f2 : Int) (w1 : World),
      waitForPoolConfCreation env state fuel u1 w = some (ret, f1, w1) ∧
      waitForPoolConfCreation env state fuel u2 w = some (ret, f2, w1) ∧
      (ret = 0 → f1 = f2) := by
  unfold waitForPoolConfCreation
  simp only
  by_cases hd : (addInotifyWatch env state.inotifyFd POOL_CONF_DIR dirWatchMask w).1 < 0
  · simp only [hd, if_true]
    refine Or.inr ⟨_, u1, u2, _, rfl, rfl, ?_⟩
    intro h0
    omega
  · simp only [hd, if_false]
    rcases creationLoop_uninit env state
        (addInotifyWatch env state.inotifyFd POOL_CONF_DIR dirWatchMask w).1 fuel u1 u2
        (addInotifyWatch env state.inotifyFd POOL_CONF_DIR dirWatchMask w).2 with
      ⟨h1, h2⟩ | ⟨ret, f1, f2, w1, h1, h2, h3⟩
    · rw [h1, h2]
      exact Or.inl ⟨rfl, rfl⟩
    · rw [h1, h2]
      exact Or.inr ⟨ret, f1, f2, _, rfl, rfl, h3⟩

/-- The indeterminate value of the variable `wdFile` of `main` does not influence the
main loop: it is never passed to `waitAndProcessFileEvents`. -/
theorem mainLoop_uninit (env : Env) (state : State) (u1 u2 : Int) (fuel : Nat) (ret : Int)
    (w : World) :
    mainLoop env state u1 fuel ret w = mainLoop env state u2 fuel ret w := by
  induction fuel generalizing ret w with
  | zero => rfl
  | succ k ih =>
    rw [mainLoop, mainLoop]
    by_cases hc : ret = 0 ∨ ret = ENOENT.neg ∨ ret = EIO.neg
    · simp only [hc, if_true]
      rcases waitForPoolConfCreation_uninit env state k u1 u2 w with
        ⟨h1, h2⟩ | ⟨r, f1, f2, w1, h1, h2, h3⟩
      · rw [h1, h2]
      · rw [h1, h2]
        simp only
        by_cases hr : r < 0
        · simp only [hr, if_true]
        · simp only [hr, if_false]
          have hle := (waitForPoolConfCreation_result env state k u1 w r f1 w1 h1).1
          have h0 : r = 0 := by omega
          rw [h3 h0]
          cases waitAndProcessFileEvents env state k f2 w1 with
          | none => rfl
          | some r2 =>
            obtain ⟨c, w2⟩ := r2
            exact ih c w2
    · simp only [hc, if_false]

/-- What the main loop returns: a negative result, either a result of
`waitAndProcessFileEvents` other than 0, `-ENOENT` and `-EIO`, or a negative result of
`waitForPoolConfCreation`; or the value of `ret` at entry when that ends the loop at
once. -/
theorem mainLoop_result (env : Env) (state : State) (uninit : Int) (fuel : Nat) (ret : Int)
    (w : World) (r : Int) (w1 : World)
    (h : mainLoop env state uninit fuel ret w = some (r, w1)) :
    (r = ret ∧ w1 = w ∧ ¬ (ret = 0 ∨ ret = ENOENT.neg ∨ ret = EIO.neg)) ∨
    (r < 0 ∧
      ((∃ (f : Nat) (wd : Int) (w0 : World),
          waitAndProcessFileEvents env state f wd w0 = some (r, w1) ∧
          r ≠ 0 ∧ r ≠ ENOENT.neg ∧ r ≠ EIO.neg) ∨
       (∃ (f : Nat) (w0 : World) (wf : Int),
          waitForPoolConfCreation env state f uninit w0 = some (r, wf, w1) ∧ r < 0))) := by
  induction fuel generalizing ret w with
  | zero => simp [mainLoop] at h
  | succ k ih =>
    rw [mainLoop] at h
    by_cases hc : ret = 0 ∨ ret = ENOENT.neg ∨ ret = EIO.neg
    · rw [if_pos hc] at h
      cases hw : waitForPoolConfCreation env state k uninit w with
      | none => rw [hw] at h; simp at h
      | some r1 =>
        obtain ⟨ret1, wdFile, w2⟩ := r1
        rw [hw] at h
        simp only at h
        by_cases hr : ret1 < 0
        · rw [if_pos hr] at h
          simp only [Option.some.injEq, Prod.mk.injEq] at h
          obtain ⟨h1, h2⟩ := h
          subst h1 h2
          exact Or.inr ⟨hr, Or.inr ⟨k, w, wdFile, hw, hr⟩⟩
        · rw [if_neg hr] at h
          cases hf : waitAndProcessFileEvents env state k wdFile w2 with
          | none => rw [hf] at h; simp at h
          | some r2 =>
            obtain ⟨ret2, w3⟩ := r2
            rw [hf] at h
            simp only at h
            rcases ih ret2 w3 h with ⟨h1, h2, h3⟩ | hright
            · subst h1 h2
              have hneg : r < 0 := by
                rw [waitAndProcessFileEvents_eq] at hf
                exact waitLoop_default_neg env state wdFile k _ 0 _ r w1 hf
              refine Or.inr ⟨hneg, Or.inl ⟨k, wdFile, w2, hf, ?_, ?_, ?_⟩⟩
              · intro h0; exact h3 (Or.inl h0)
              · intro h0; exact h3 (Or.inr (Or.inl h0))
              · intro h0; exact h3 (Or.inr (Or.inr h0))
            · exact Or.inr hright
    · rw [if_neg hc] at h
      simp only [Option.some.injEq, Prod.mk.injEq] at h
      exact Or.inl ⟨h.1.symm, h.2.symm, hc⟩

/-- The indeterminate value of the variable `wdFile` of `main` does not influence the
run of `main`. -/
theorem main_uninit (env : Env) (u1 u2 : Int) (fuel : Nat) (w : World) :
    main env u1 fuel w = main env u2 fuel w := by
  unfold main
  simp only
  rw [mainLoop_uninit env _ u1 u2]

/-! ## Exit of the program -/

/-- C18: `main` never returns 0.  Whenever `main` returns, its exit code is strictly
positive, and one of two cases holds.  Either `inotify_init1` failed with errno `e`, and
the exit code is `e`.  Or the inotify instance was created, the main loop ended with a
negative result `r`, the exit code is `-r`, and `r` is either a result of
`waitAndProcessFileEvents` other than 0, `-ENOENT` and `-EIO`, or a negative result of
`waitForPoolConfCreation`.  Failing system calls report a positive errno, by the type
`Errno`. -/
theorem main_never_returns_zero (env : Env) (uninit : Int) (fuel : Nat) (w : World)
    (code : Int) (w1 : World) (h : main env uninit fuel w = some (code, w1)) :
    0 < code ∧
    ((∃ e : Errno, env.inotify_init1 = .fails e ∧ code = (e.code : Int) ∧ w1 = w) ∨
     (∃ (fd : Nat) (r : Int) (w2 : World),
        env.inotify_init1 = .ok fd ∧
        mainLoop env { inotifyFd := (fd : Int) } uninit fuel 0
          (updateLinstorNode env { inotifyFd := (fd : Int) } w).2 = some (r, w2) ∧
        r < 0 ∧ code = -r ∧
        w1 = { w2 with trace := w2.trace ++ [.close (fd : Int)] } ∧
        ((∃ (f : Nat) (wd : Int) (w0 : World),
            waitAndProcessFileEvents env { inotifyFd := (fd : Int) } f wd w0 = some (r, w2) ∧
            r ≠ 0 ∧ r ≠ ENOENT.neg ∧ r ≠ EIO.neg) ∨
         (∃ (f : Nat) (w0 : World) (wf : Int),
            waitForPoolConfCreation env { inotifyFd := (fd : Int) } f uninit w0 =
              some (r, wf, w2) ∧ r < 0)))) := by
  unfold main createInotifyInstance at h
  cases hi : env.inotify_init1 with
  | fails e =>
    rw [hi] at h
    have hneg := Errno.neg_neg e
    simp only [hneg, if_true, Option.some.injEq, Prod.mk.injEq] at h
    obtain ⟨h1, h2⟩ := h
    have hc : code = (e.code : Int) := by
      rw [← h1]
      simp [Errno.neg]
    have hp := e.pos
    refine ⟨by omega, Or.inl ⟨e, rfl, hc, h2.symm⟩⟩
  | ok fd =>
    rw [hi] at h
    have hfd : ¬ ((fd : Int) < 0) := by omega
    simp only [hfd, if_false] at h
    cases hm : mainLoop env { inotifyFd := (fd : Int) } uninit fuel 0
        (updateLinstorNode env { inotifyFd := (fd : Int) } w).2 with
    | none => rw [hm] at h; simp at h
    | some r2 =>
      obtain ⟨r, w2⟩ := r2
      rw [hm] at h
      simp only [Option.some.injEq, Prod.mk.injEq] at h
      obtain ⟨h1, h2⟩ := h
      rcases mainLoop_result env _ uninit fuel 0 _ r w2 hm with ⟨_, _, h3⟩ | ⟨hr, hreason⟩
      · exact absurd (Or.inl rfl) h3
      · exact ⟨by omega, Or.inr ⟨fd, r, w2, rfl, hm, hr, h1.symm, h2.symm, hreason⟩⟩

theorem main_never_returns_zero_witness :
    main deniedEnv 0 3 World.init =
        some (13, { clockCalls := 0, confReads := 1, execCalls := 0, hostCalls := 1,
                    addCalls := 1, pollCalls := 0, watches := [],
                    trace := [.gethostname,
                              .inotify_add_watch 3 POOL_CONF_DIR dirWatchMask,
                              .inotify_rm_watch 3 1, .close 3] }) ∧
      (0 : Int) < 13 :=
  ⟨by decide,
    (main_never_returns_zero deniedEnv 0 3 World.init 13
      { clockCalls := 0, confReads := 1, execCalls := 0, hostCalls := 1,
        addCalls := 1, pollCalls := 0, watches := [],
        trace := [.gethostname,
                  .inotify_add_watch 3 POOL_CONF_DIR dirWatchMask,
                  .inotify_rm_watch 3 1, .close 3] } (by decide)).1⟩

/-- C20: `waitForPoolConfCreation` returns 0 only when its last reconciliation returned 0
and the registration of the file watch that followed succeeded; `*wdFile` is then the
non-negative handle returned by that registration, and the function ends with the removal
of the directory watch right after it.  Hence, whenever the result is not negative,
which is when `main` goes on to `waitAndProcessFileEvents`, the handle passed is
non-negative and does not depend on the indeterminate value the variable `wdFile` of
`main` had before the call, and neither does the run of `main`.  On every return after
a successful registration of the directory watch with handle `d`, the actions of the
call are that registration, actions without any `inotify_rm_watch`, and finally one
`inotify_rm_watch` of `d`. -/
theorem waitForPoolConfCreation_zero_gives_registered_file_watch (env : Env) (state : State)
    (fuel : Nat) (uninit : Int) (w : World) (ret wdFile : Int) (w1 : World)
    (h : waitForPoolConfCreation env state fuel uninit w = some (ret, wdFile, w1)) :
    (ret = 0 → ∃ (w0 wB wC : World) (dNew dDir : Nat),
      updateLinstorServices env w0 = (0, wB) ∧
      env.inotify_add_watch wB.addCalls = .ok dNew ∧
      addInotifyWatch env state.inotifyFd POOL_CONF_ABS_FILE fileWatchMask wB =
        ((dNew : Int), wC) ∧
      wdFile = (dNew : Int) ∧ 0 ≤ wdFile ∧
      env.inotify_add_watch w.addCalls = .ok dDir ∧
      w1 = inotify_rm_watch state.inotifyFd (dDir : Int) wC) ∧
    (¬ ret < 0 → ret = 0 ∧ 0 ≤ wdFile ∧
      ∀ u2 : Int, waitForPoolConfCreation env state fuel u2 w = some (ret, wdFile, w1)) ∧
    (∀ (u2 : Int) (f : Nat) (w0 : World), main env uninit f w0 = main env u2 f w0) ∧
    (∀ d : Nat, env.inotify_add_watch w.addCalls = .ok d →
      ∃ l, actionsSince w w1 =
          [.inotify_add_watch state.inotifyFd POOL_CONF_DIR dirWatchMask] ++ l ++
            [.inotify_rm_watch state.inotifyFd (d : Int)] ∧
        noRmWatch l) := by
  obtain ⟨r1, r2, r3, _⟩ := waitForPoolConfCreation_result env state fuel uninit w ret wdFile w1 h
  refine ⟨r2, ?_, ?_, r3⟩
  · intro hn
    have h0 : ret = 0 := by omega
    obtain ⟨_, _, _, _, _, _, _, _, _, q5, _, _⟩ := r2 h0
    refine ⟨h0, q5, ?_⟩
    intro u2
    rcases waitForPoolConfCreation_uninit env state fuel uninit u2 w with
      ⟨e1, _⟩ | ⟨c, f1, f2, w2, e1, e2, e3⟩
    · rw [e1] at h
      simp at h
    · rw [e1] at h
      simp only [Option.some.injEq, Prod.mk.injEq] at h
      obtain ⟨h1, h2, h3⟩ := h
      rw [e2, ← h1, ← h2, ← h3, e3 (by omega)]
  · intro u2 f w0
    exact main_uninit env uninit u2 f w0

theorem waitForPoolConfCreation_zero_gives_registered_file_watch_witness :
    waitForPoolConfCreation truncatedEnv { inotifyFd := 3 } 3 77 World.init =
        some (0, 2, { clockCalls := 0, confReads := 1, execCalls := 1, hostCalls := 0,
                      addCalls := 2, pollCalls := 0,
                      watches := [(2, POOL_CONF_ABS_FILE)],
                      trace := [.inotify_add_watch 3 POOL_CONF_DIR dirWatchMask,
                                .execCommand Spec.enableVerb,
                                .inotify_add_watch 3 POOL_CONF_ABS_FILE fileWatchMask,
                                .inotify_rm_watch 3 1] }) ∧
      ((0 : Int) ≤ 2 ∧
        ∀ u2 : Int, waitForPoolConfCreation truncatedEnv { inotifyFd := 3 } 3 u2 World.init =
          some (0, 2, { clockCalls := 0, confReads := 1, execCalls := 1, hostCalls := 0,
                        addCalls := 2, pollCalls := 0,
                        watches := [(2, POOL_CONF_ABS_FILE)],
                        trace := [.inotify_add_watch 3 POOL_CONF_DIR dirWatchMask,
                                  .execCommand Spec.enableVerb,
                                  .inotify_add_watch 3 POOL_CONF_ABS_FILE fileWatchMask,
                                  .inotify_rm_watch 3 1] })) :=
  ⟨by decide,
    ((waitForPoolConfCreation_zero_gives_registered_file_watch truncatedEnv
        { inotifyFd := 3 } 3 77 World.init 0 2
        { clockCalls := 0, confReads := 1, execCalls := 1, hostCalls := 0,
          addCalls := 2, pollCalls := 0,
          watches := [(2, POOL_CONF_ABS_FILE)],
          trace := [.inotify_add_watch 3 POOL_CONF_DIR dirWatchMask,
                    .execCommand Spec.enableVerb,
                    .inotify_add_watch 3 POOL_CONF_ABS_FILE fileWatchMask,
                    .inotify_rm_watch 3 1] } (by decide)).2.1 (by decide)).2⟩

end LinstorMonitord
